import Mathlib

/-!
Shallow embedding of the WebAppManifestRS crate (src/types.rs, src/errors.rs,
src/resources.rs, src/lib.rs).

The absolute-URL primitives (the external `url` crate: parsing, relative
reference joining, origin and path accessors, rendering to text) are an
external black-box collaborator of the crate, so they are modelled abstractly
by a record of operations `UrlOps A E` over an arbitrary type `A` of absolute
URLs and an arbitrary type `E` of URL parse errors.  Origins are modelled as
`String` values compared for equality, which is all the crate ever does with
them.  A small executable instance (`DemoUrl`, `demoOps`) is provided so that
concrete runs of the engine can be evaluated.

The Rust `unreachable!()` branches inside `WebAppManifest::process` are
modelled by a dedicated outcome `ProcError.panic`, distinct from the ordinary
`ManifestError` results, so that their (un)reachability can be stated and
proved.
-/

namespace Wam

/-- Abstract interface to the external absolute-URL capability (the `url`
crate): `parse` a string, `join` a reference string against a base URL,
project the `origin` (scheme+host+port, modelled as an opaque string compared
for equality) and the `path`, and `render` a URL back to text. -/
structure UrlOps (A E : Type) where
  parse : String → Except E A
  join : A → String → Except E A
  origin : A → String
  path : A → String
  render : A → String

/-- The tri-state resource URL from src/types.rs (`enum Url`). -/
inductive Url (A : Type) where
  /-- The parsed absolute URL. -/
  | Absolute (url : A)
  /-- The relative URL as an unparsed string. -/
  | Relative (url : String)
  /-- The unknown URL. -/
  | Unknown
deriving DecidableEq

instance {A : Type} : Inhabited (Url A) := ⟨Url.Unknown⟩

/-- Manifest errors from src/errors.rs (`enum ManifestError`). -/
inductive ManifestError (A E : Type) where
  | UrlParsing (source : E)
  | InvalidUnknownUrl
  | NotSameOrigin (url1 : A) (url2 : A)
  | NotWithinScope (url : A) (scope : A)
  | NotAbsolute (url : Url A)
  | NotStringifyable (url : Url A)
deriving DecidableEq

/-- Outcome type for `process`: either an ordinary `ManifestError`, or the
`panic` outcome modelling the `unreachable!()` macro invocations. -/
inductive ProcError (A E : Type) where
  | err (e : ManifestError A E)
  | panic
deriving DecidableEq

deriving instance DecidableEq for Except

/-- The `impl FromStr for Url` conversion (src/types.rs lines 46-56): attempt an absolute
parse; success yields `Absolute`, failure yields `Relative`.  The Rust
signature is fallible (`Result<Self, Box<dyn Error>>`) but the body always
returns `Ok`; the error payload type is modelled as `String`. -/
def Url.fromStr {A E : Type} (ops : UrlOps A E) (string : String) : Except String (Url A) :=
  .ok (match ops.parse string with
    | .ok url => .Absolute url
    | .error _ => .Relative string)

/-- The `impl TryInto<String> for Url` conversion (src/types.rs lines 58-68). -/
def Url.tryIntoString {A E : Type} (ops : UrlOps A E) : Url A → Except (ManifestError A E) String
  | .Absolute url => .ok (ops.render url)
  | .Relative url => .ok url
  | u => .error (.NotStringifyable u)

/-- The `impl TryInto<AbsoluteUrl> for Url` conversion (src/types.rs lines 70-79). -/
def Url.tryIntoAbsolute {A : Type} (E : Type) : Url A → Except (ManifestError A E) A
  | .Absolute url => .ok url
  | u => .error (.NotAbsolute u)

/-- The base text direction enum (src/types.rs `Direction`). -/
inductive Direction where
  | Auto | Ltr | Rtl
deriving DecidableEq

/-- The display mode enum (src/types.rs `Display`). -/
inductive Display where
  | Browser | Fullscreen | Standalone | MinimalUi
deriving DecidableEq

/-- The orientation enum (src/types.rs `Orientation`). -/
inductive Orientation where
  | Any | Natural | Landscape | Portrait
  | LandscapePrimary | LandscapeSecondary | PortraitPrimary | PortraitSecondary
deriving DecidableEq

/-- The share target HTTP method enum (src/types.rs `ShareTargetMethod`). -/
inductive ShareTargetMethod where
  | Get | Post
deriving DecidableEq

/-- The share target body encoding enum (src/types.rs `ShareTargetEnctype`). -/
inductive ShareTargetEnctype where
  | UrlEncoded | FormData
deriving DecidableEq

/-- The image size (src/types.rs `ImageSize`); `u32` dimensions modelled as `Nat`. -/
inductive ImageSize where
  | Fixed (w h : Nat)
  | Any
deriving DecidableEq

/-- The image purpose enum (src/types.rs `ImagePurpose`). -/
inductive ImagePurpose where
  | Any | Monochrome | Maskable
deriving DecidableEq

/-- Fingerprint record (src/resources.rs `ExternalApplicationFingerprint`). -/
structure ExternalApplicationFingerprint where
  type : String
  value : String
deriving DecidableEq

/-- External application resource (src/resources.rs lines 38-61). -/
structure ExternalApplicationResource (A : Type) where
  platform : String
  min_version : Option String
  url : Option (Url A)
  id : Option String
  fingerprints : List ExternalApplicationFingerprint
deriving DecidableEq

/-- Protocol handler resource (src/resources.rs lines 67-75). -/
structure ProtocolHandlerResource (A : Type) where
  protocol : String
  url : Url A
deriving DecidableEq

/-- Icon resource (src/resources.rs lines 168-190); the external `MediaType`
is modelled as a string and the `HashSet` fields as lists, none of which the
resolution engine ever inspects. -/
structure IconResource (A : Type) where
  src : Url A
  type : Option String
  sizes : List ImageSize
  purpose : List ImagePurpose
  label : Option String
deriving DecidableEq

/-- Shortcut resource (src/resources.rs lines 86-106). -/
structure ShortcutResource (A : Type) where
  name : String
  short_name : Option String
  description : Option String
  url : Url A
  icons : List (IconResource A)
deriving DecidableEq

/-- Share target params (src/resources.rs lines 117-129). -/
structure ShareTargetParams where
  title : Option String
  text : Option String
  url : Option String
deriving DecidableEq

/-- Share target resource (src/resources.rs lines 141-156). -/
structure ShareTargetResource (A : Type) where
  action : Url A
  method : ShareTargetMethod
  enctype : ShareTargetEnctype
  params : ShareTargetParams
deriving DecidableEq

/-- Screenshot resource (src/resources.rs lines 202-221). -/
structure ScreenshotResource (A : Type) where
  src : Url A
  type : Option String
  sizes : List ImageSize
  platform : Option String
deriving DecidableEq

/-- The manifest document (src/lib.rs `struct WebAppManifest`); the external
`Color` and `LanguageTag` types are modelled as strings, which the resolution
engine never inspects. -/
structure WebAppManifest (A : Type) where
  start_url : Url A
  scope : Url A
  name : Option String
  short_name : Option String
  description : Option String
  categories : List String
  keywords : List String
  dir : Direction
  lang : Option String
  display : Display
  orientation : Orientation
  background_color : Option String
  theme_color : Option String
  iarc_rating_id : Option String
  prefer_related_applications : Bool
  related_applications : List (ExternalApplicationResource A)
  protocol_handlers : List (ProtocolHandlerResource A)
  shortcuts : List (ShortcutResource A)
  share_target : Option (ShareTargetResource A)
  icons : List (IconResource A)
  screenshots : List (ScreenshotResource A)
deriving DecidableEq

section Engine

variable {A E : Type}

/-- The `?` operator on `manifest_url.join(..)` results: a join failure is
converted into `ManifestError::UrlParsing { source }` via the `#[from]`
conversion in src/errors.rs. -/
def joinE (ops : UrlOps A E) (base : A) (ref : String) : Except (ProcError A E) A :=
  match ops.join base ref with
  | .ok url => .ok url
  | .error e => .error (.err (.UrlParsing e))

/-- Start URL resolution (src/lib.rs lines 560-564): a relative start URL is
joined against the manifest URL, an unknown start URL becomes the document
URL, an absolute start URL is left unchanged. -/
def resolveStartUrl (ops : UrlOps A E) (document_url manifest_url : A) :
    Url A → Except (ProcError A E) (Url A)
  | .Relative start_url =>
    match joinE ops manifest_url start_url with
    | .error e => .error e
    | .ok url => .ok (.Absolute url)
  | .Unknown => .ok (.Absolute document_url)
  | .Absolute url => .ok (.Absolute url)

/-- Scope resolution (src/lib.rs lines 567-576): a relative scope is joined
against the manifest URL; an unknown scope is `.` joined against the
already-resolved start URL, whose extraction as an absolute URL models the
`unreachable!()` at line 573; an absolute scope is left unchanged. -/
def resolveScope (ops : UrlOps A E) (manifest_url : A) (start_url : Url A) :
    Url A → Except (ProcError A E) (Url A)
  | .Relative scope =>
    match joinE ops manifest_url scope with
    | .error e => .error e
    | .ok url => .ok (.Absolute url)
  | .Unknown =>
    match start_url with
    | .Absolute start_url =>
      match joinE ops start_url "." with
      | .error e => .error e
      | .ok url => .ok (.Absolute url)
    | _ => .error .panic
  | .Absolute url => .ok (.Absolute url)

/-- The three-way rewrite applied to every resource URL field (the repeated
pattern of src/lib.rs lines 579-640): relative joins against the manifest
URL, unknown is an error, absolute passes through. -/
def resolveUrlField (ops : UrlOps A E) (manifest_url : A) :
    Url A → Except (ProcError A E) (Url A)
  | .Relative url =>
    match joinE ops manifest_url url with
    | .error e => .error e
    | .ok url => .ok (.Absolute url)
  | .Unknown => .error (.err .InvalidUnknownUrl)
  | .Absolute url => .ok (.Absolute url)

/-- A `for` loop that rewrites each element and returns at the first error. -/
def mapME {α β : Type} (f : α → Except (ProcError A E) β) :
    List α → Except (ProcError A E) (List β)
  | [] => .ok []
  | x :: xs =>
    match f x with
    | .error e => .error e
    | .ok y =>
      match mapME f xs with
      | .error e => .error e
      | .ok ys => .ok (y :: ys)

/-- External application rewrite (src/lib.rs lines 579-587): only the
optional `url` field is touched. -/
def resolveExternalApplication (ops : UrlOps A E) (manifest_url : A)
    (ea : ExternalApplicationResource A) :
    Except (ProcError A E) (ExternalApplicationResource A) :=
  match ea.url with
  | some url =>
    match resolveUrlField ops manifest_url url with
    | .error e => .error e
    | .ok url => .ok { ea with url := some url }
  | none => .ok ea

/-- Protocol handler rewrite (src/lib.rs lines 590-596). -/
def resolveProtocolHandler (ops : UrlOps A E) (manifest_url : A)
    (ph : ProtocolHandlerResource A) :
    Except (ProcError A E) (ProtocolHandlerResource A) :=
  match resolveUrlField ops manifest_url ph.url with
  | .error e => .error e
  | .ok url => .ok { ph with url := url }

/-- Icon rewrite (src/lib.rs lines 625-631, and the inner shortcut-icon loop
at lines 606-612, which performs the same rewrite of `src`). -/
def resolveIcon (ops : UrlOps A E) (manifest_url : A) (icon : IconResource A) :
    Except (ProcError A E) (IconResource A) :=
  match resolveUrlField ops manifest_url icon.src with
  | .error e => .error e
  | .ok src => .ok { icon with src := src }

/-- Shortcut rewrite (src/lib.rs lines 599-613): its `url` first, then each
of its icons' `src` in order. -/
def resolveShortcut (ops : UrlOps A E) (manifest_url : A) (shortcut : ShortcutResource A) :
    Except (ProcError A E) (ShortcutResource A) :=
  match resolveUrlField ops manifest_url shortcut.url with
  | .error e => .error e
  | .ok url =>
    match mapME (resolveIcon ops manifest_url) shortcut.icons with
    | .error e => .error e
    | .ok icons => .ok { shortcut with url := url, icons := icons }

/-- Share target rewrite (src/lib.rs lines 616-622): only the `action`. -/
def resolveShareTarget (ops : UrlOps A E) (manifest_url : A) (st : ShareTargetResource A) :
    Except (ProcError A E) (ShareTargetResource A) :=
  match resolveUrlField ops manifest_url st.action with
  | .error e => .error e
  | .ok action => .ok { st with action := action }

/-- The `if let Some(share_target)` wrapper around the share target rewrite. -/
def resolveShareTargetOpt (ops : UrlOps A E) (manifest_url : A) :
    Option (ShareTargetResource A) → Except (ProcError A E) (Option (ShareTargetResource A))
  | some st =>
    match resolveShareTarget ops manifest_url st with
    | .error e => .error e
    | .ok st => .ok (some st)
  | none => .ok none

/-- Screenshot rewrite (src/lib.rs lines 634-640). -/
def resolveScreenshot (ops : UrlOps A E) (manifest_url : A) (s : ScreenshotResource A) :
    Except (ProcError A E) (ScreenshotResource A) :=
  match resolveUrlField ops manifest_url s.src with
  | .error e => .error e
  | .ok src => .ok { s with src := src }

/-- The URL-rewriting pass of `process` (src/lib.rs lines 560-640), in the
source's order: start URL, scope, external applications, protocol handlers,
shortcuts (with their icons), share target, icons, screenshots. -/
def resolveUrls (ops : UrlOps A E) (m : WebAppManifest A) (document_url manifest_url : A) :
    Except (ProcError A E) (WebAppManifest A) :=
  match resolveStartUrl ops document_url manifest_url m.start_url with
  | .error e => .error e
  | .ok start_url =>
  match resolveScope ops manifest_url start_url m.scope with
  | .error e => .error e
  | .ok scope =>
  match mapME (resolveExternalApplication ops manifest_url) m.related_applications with
  | .error e => .error e
  | .ok related_applications =>
  match mapME (resolveProtocolHandler ops manifest_url) m.protocol_handlers with
  | .error e => .error e
  | .ok protocol_handlers =>
  match mapME (resolveShortcut ops manifest_url) m.shortcuts with
  | .error e => .error e
  | .ok shortcuts =>
  match resolveShareTargetOpt ops manifest_url m.share_target with
  | .error e => .error e
  | .ok share_target =>
  match mapME (resolveIcon ops manifest_url) m.icons with
  | .error e => .error e
  | .ok icons =>
  match mapME (resolveScreenshot ops manifest_url) m.screenshots with
  | .error e => .error e
  | .ok screenshots =>
    .ok { m with start_url := start_url, scope := scope,
                 related_applications := related_applications,
                 protocol_handlers := protocol_handlers,
                 shortcuts := shortcuts, share_target := share_target,
                 icons := icons, screenshots := screenshots }

/-- Rust's `str::starts_with(&str)`: a literal prefix test, here on the
character lists of the two strings (equivalent to the byte-prefix test on
valid UTF-8). -/
def strStartsWith (s pre : String) : Bool :=
  pre.data.isPrefixOf s.data

/-- The scope-violation test used by every containment check in src/lib.rs
(lines 663, 679-680, 697-698, 715): the URL's origin differs from the scope's
origin, or the URL's path does not start with the scope's path. -/
def violatesScope (ops : UrlOps A E) (scope url : A) : Bool :=
  ops.origin url != ops.origin scope || !(strStartsWith (ops.path url) (ops.path scope))

/-- One scoped-resource check: extract the absolute URL (the `unreachable!()`
extraction pattern of src/lib.rs lines 672-677, 691-695, 709-713) and test it
against the scope. -/
def checkScopeUrl (ops : UrlOps A E) (scope : A) : Url A → Except (ProcError A E) Unit
  | .Absolute url =>
    if violatesScope ops scope url then .error (.err (.NotWithinScope url scope))
    else .ok ()
  | _ => .error .panic

/-- The scoped-resource containment checks (src/lib.rs lines 671-721), in the
source's order: protocol handler URLs, shortcut URLs, the share target
action.  Icons and screenshots are not checked. -/
def scopedResourceChecks (ops : UrlOps A E) (scope : A) (m : WebAppManifest A) :
    Except (ProcError A E) Unit :=
  match mapME (fun ph => checkScopeUrl ops scope ph.url) m.protocol_handlers with
  | .error e => .error e
  | .ok _ =>
  match mapME (fun s => checkScopeUrl ops scope s.url) m.shortcuts with
  | .error e => .error e
  | .ok _ =>
  match m.share_target with
  | some st => checkScopeUrl ops scope st.action
  | none => .ok ()

/-- The validation phase of `process` (src/lib.rs lines 643-721): extract the
absolute scope (line 643, `unreachable!()` at 646) and start URL (line 650,
`unreachable!()` at 653), check same origin of start URL and document URL
(656-661), check the start URL against the scope (663-668), then the scoped
resources. -/
def validate (ops : UrlOps A E) (m : WebAppManifest A) (document_url : A) :
    Except (ProcError A E) Unit :=
  match m.scope with
  | .Absolute scope =>
    match m.start_url with
    | .Absolute start_url =>
      if ops.origin start_url != ops.origin document_url then
        .error (.err (.NotSameOrigin start_url document_url))
      else if violatesScope ops scope start_url then
        .error (.err (.NotWithinScope start_url scope))
      else scopedResourceChecks ops scope m
    | _ => .error .panic
  | _ => .error .panic

/-- The method `WebAppManifest::process` (src/lib.rs lines 554-724): the URL-rewriting
pass followed by the validation phase; on success the rewritten manifest is
returned (the Rust method mutates `self` in place and returns `&mut Self`). -/
def process (ops : UrlOps A E) (m : WebAppManifest A) (document_url manifest_url : A) :
    Except (ProcError A E) (WebAppManifest A) :=
  match resolveUrls ops m document_url manifest_url with
  | .error e => .error e
  | .ok m =>
    match validate ops m document_url with
    | .error e => .error e
    | .ok _ => .ok m

/-- A tri-state URL that is in the `Absolute` state. -/
def Url.IsAbs : Url A → Prop := fun u => ∃ v, u = Url.Absolute v

/-- Relates two `Option`s pointwise. -/
def optRel {α β : Type} (r : α → β → Prop) : Option α → Option β → Prop
  | some a, some b => r a b
  | none, none => True
  | _, _ => False

/-- How a single resource URL field must be rewritten by the engine: a
relative reference becomes its successful join against the manifest URL, an
absolute URL is unchanged, and an unknown URL admits no rewritten form. -/
def resolvesVia (ops : UrlOps A E) (manifest_url : A) : Url A → Url A → Prop
  | .Relative ref, u => ∃ v, ops.join manifest_url ref = .ok v ∧ u = .Absolute v
  | .Absolute v, u => u = .Absolute v
  | .Unknown, _ => False

/-- Every URL field of the manifest is in the `Absolute` state (the state of
a successfully processed document). -/
def manifestResolved (m : WebAppManifest A) : Prop :=
  m.start_url.IsAbs ∧ m.scope.IsAbs ∧
  (∀ ea ∈ m.related_applications, ea.url = none ∨ ∃ v, ea.url = some (Url.Absolute v)) ∧
  (∀ ph ∈ m.protocol_handlers, ph.url.IsAbs) ∧
  (∀ s ∈ m.shortcuts, s.url.IsAbs ∧ ∀ i ∈ s.icons, i.src.IsAbs) ∧
  (∀ st ∈ m.share_target, (ShareTargetResource.action st).IsAbs) ∧
  (∀ i ∈ m.icons, i.src.IsAbs) ∧
  (∀ s ∈ m.screenshots, s.src.IsAbs)

/-- Some resource URL field of the manifest (any URL field other than the
start URL and the scope) is in the `Unknown` state. -/
def hasUnknownResourceUrl (m : WebAppManifest A) : Prop :=
  (∃ ea ∈ m.related_applications, ea.url = some Url.Unknown) ∨
  (∃ ph ∈ m.protocol_handlers, ph.url = Url.Unknown) ∨
  (∃ s ∈ m.shortcuts, s.url = Url.Unknown ∨ ∃ i ∈ s.icons, i.src = Url.Unknown) ∨
  (∃ st ∈ m.share_target, ShareTargetResource.action st = Url.Unknown) ∨
  (∃ i ∈ m.icons, i.src = Url.Unknown) ∨
  (∃ s ∈ m.screenshots, s.src = Url.Unknown)

/-- All joins of the URL capability succeed (no reference string is
malformed with respect to any base). -/
def joinsTotal (ops : UrlOps A E) : Prop :=
  ∀ (base : A) (ref : String), ∃ v, ops.join base ref = .ok v

end Engine

/-- A tiny concrete absolute-URL type for executing the engine: an origin
string and a path string. -/
structure DemoUrl where
  origin : String
  path : String
deriving DecidableEq

/-- Concrete join for `DemoUrl`: the reference `"!"` is malformed, `"."`
resolves to the root directory of the base, and any other reference becomes
the path of a URL on the base's origin. -/
def demoJoin (base : DemoUrl) (ref : String) : Except String DemoUrl :=
  if ref = "!" then .error "bad reference"
  else if ref = "." then .ok { origin := base.origin, path := "/" }
  else .ok { origin := base.origin, path := ref }

/-- Concrete parse for `DemoUrl`: one recognised absolute URL string parses,
anything else is a relative reference. -/
def demoParse (s : String) : Except String DemoUrl :=
  if s = "https://example.com/" then .ok { origin := "https://example.com", path := "/" }
  else .error "relative URL without a base"

/-- The concrete URL capability built from `demoParse` and `demoJoin`. -/
def demoOps : UrlOps DemoUrl String :=
  { parse := demoParse, join := demoJoin,
    origin := DemoUrl.origin, path := DemoUrl.path,
    render := fun u => u.origin ++ u.path }

/-- A manifest with every field at its default (src/lib.rs `Default`):
unknown URLs, empty collections, `none` options. -/
def demoManifest : WebAppManifest DemoUrl :=
  { start_url := .Unknown, scope := .Unknown, name := none, short_name := none,
    description := none, categories := [], keywords := [], dir := .Auto,
    lang := none, display := .Browser, orientation := .Any,
    background_color := none, theme_color := none, iarc_rating_id := none,
    prefer_related_applications := false, related_applications := [],
    protocol_handlers := [], shortcuts := [], share_target := none,
    icons := [], screenshots := [] }

/-- Concrete document URL for witnesses. -/
def demoDoc : DemoUrl := ⟨"app", "/index.html"⟩

/-- Concrete manifest URL for witnesses. -/
def demoMan : DemoUrl := ⟨"app", "/manifest.json"⟩

/-- A variant of `demoJoin` in which every join succeeds. -/
def demoJoinTotal (base : DemoUrl) (ref : String) : Except String DemoUrl :=
  if ref = "." then .ok { origin := base.origin, path := "/" }
  else .ok { origin := base.origin, path := ref }

/-- The concrete URL capability whose joins never fail. -/
def demoOpsT : UrlOps DemoUrl String :=
  { parse := demoParse, join := demoJoinTotal,
    origin := DemoUrl.origin, path := DemoUrl.path,
    render := fun u => u.origin ++ u.path }

section Lemmas

variable {A E : Type} {ops : UrlOps A E}

theorem joinE_ok_iff {b : A} {r : String} {u : A} :
    joinE ops b r = .ok u ↔ ops.join b r = .ok u := by
  cases h : ops.join b r <;> simp [joinE, h]

theorem joinE_rel_err {b : A} {r : String} {e : E}
    (h : ops.join b r = .error e) :
    joinE ops b r = .error (.err (.UrlParsing e)) := by
  simp [joinE, h]

theorem joinE_err_shape {b : A} {r : String} {pe : ProcError A E}
    (h : joinE ops b r = .error pe) : ∃ e, pe = .err (.UrlParsing e) := by
  cases hj : ops.join b r with
  | ok u => simp [joinE, hj] at h
  | error e => simp [joinE, hj] at h; exact ⟨e, h.symm⟩

theorem resolveStartUrl_rel_ok {doc man : A} {r : String} {u : A}
    (h : ops.join man r = .ok u) :
    resolveStartUrl ops doc man (.Relative r) = .ok (.Absolute u) := by
  simp [resolveStartUrl, joinE_ok_iff.mpr h]

theorem resolveStartUrl_rel_err {doc man : A} {r : String} {e : E}
    (h : ops.join man r = .error e) :
    resolveStartUrl ops doc man (.Relative r) = .error (.err (.UrlParsing e)) := by
  simp [resolveStartUrl, joinE_rel_err h]

theorem resolveStartUrl_ok_isAbs {doc man : A} {s su : Url A}
    (h : resolveStartUrl ops doc man s = .ok su) : su.IsAbs := by
  cases s with
  | Relative r =>
    cases hj : joinE ops man r <;> simp [resolveStartUrl, hj] at h
    exact ⟨_, h.symm⟩
  | Unknown =>
    simp [resolveStartUrl] at h
    exact ⟨_, h.symm⟩
  | Absolute u =>
    simp [resolveStartUrl] at h
    exact ⟨_, h.symm⟩

theorem resolveStartUrl_err_shape {doc man : A} {s : Url A} {pe : ProcError A E}
    (h : resolveStartUrl ops doc man s = .error pe) : ∃ e, pe = .err (.UrlParsing e) := by
  cases s with
  | Relative r =>
    cases hj : joinE ops man r <;> simp [resolveStartUrl, hj] at h
    subst h
    exact joinE_err_shape hj
  | Unknown => simp [resolveStartUrl] at h
  | Absolute u => simp [resolveStartUrl] at h

theorem resolveScope_rel_ok {man : A} {su : Url A} {r : String} {u : A}
    (h : ops.join man r = .ok u) :
    resolveScope ops man su (.Relative r) = .ok (.Absolute u) := by
  simp [resolveScope, joinE_ok_iff.mpr h]

theorem resolveScope_unknown_ok {man s : A} {u : A}
    (h : ops.join s "." = .ok u) :
    resolveScope ops man (.Absolute s) .Unknown = .ok (.Absolute u) := by
  simp [resolveScope, joinE_ok_iff.mpr h]

theorem resolveScope_ok_isAbs {man : A} {su s sc : Url A}
    (h : resolveScope ops man su s = .ok sc) : sc.IsAbs := by
  cases s with
  | Relative r =>
    cases hj : joinE ops man r <;> simp [resolveScope, hj] at h
    exact ⟨_, h.symm⟩
  | Unknown =>
    cases su with
    | Absolute v =>
      cases hj : joinE ops v "." <;> simp [resolveScope, hj] at h
      exact ⟨_, h.symm⟩
    | Relative r => simp [resolveScope] at h
    | Unknown => simp [resolveScope] at h
  | Absolute u =>
    simp [resolveScope] at h
    exact ⟨_, h.symm⟩

theorem resolveScope_err_shape {man : A} {su s : Url A} {pe : ProcError A E}
    (hsu : su.IsAbs)
    (h : resolveScope ops man su s = .error pe) : ∃ e, pe = .err (.UrlParsing e) := by
  obtain ⟨v, rfl⟩ := hsu
  cases s with
  | Relative r =>
    cases hj : joinE ops man r <;> simp [resolveScope, hj] at h
    subst h
    exact joinE_err_shape hj
  | Unknown =>
    cases hj : joinE ops v "." <;> simp [resolveScope, hj] at h
    subst h
    exact joinE_err_shape hj
  | Absolute u => simp [resolveScope] at h

theorem resolveUrlField_abs {man : A} {v : A} :
    resolveUrlField ops man (.Absolute v) = .ok (.Absolute v) := rfl

theorem resolveUrlField_unknown {man : A} :
    resolveUrlField ops man (Url.Unknown : Url A) = .error (.err .InvalidUnknownUrl) := rfl

theorem resolveUrlField_rel_ok {man : A} {r : String} {u : A}
    (h : ops.join man r = .ok u) :
    resolveUrlField ops man (.Relative r) = .ok (.Absolute u) := by
  simp [resolveUrlField, joinE_ok_iff.mpr h]

theorem resolveUrlField_ok_resolvesVia {man : A} {u u' : Url A}
    (h : resolveUrlField ops man u = .ok u') : resolvesVia ops man u u' := by
  cases u with
  | Relative r =>
    cases hj : joinE ops man r <;> simp [resolveUrlField, hj] at h
    exact ⟨_, joinE_ok_iff.mp hj, h.symm⟩
  | Unknown => simp [resolveUrlField] at h
  | Absolute v =>
    simp [resolveUrlField] at h
    simp [resolvesVia, h.symm]

theorem resolveUrlField_ok_isAbs {man : A} {u u' : Url A}
    (h : resolveUrlField ops man u = .ok u') : u'.IsAbs := by
  have hv := resolveUrlField_ok_resolvesVia h
  cases u with
  | Relative r =>
    obtain ⟨v, _, rfl⟩ := hv
    exact ⟨v, rfl⟩
  | Unknown => exact absurd hv id
  | Absolute v => exact ⟨v, hv⟩

theorem resolveUrlField_err_shape {man : A} {u : Url A} {pe : ProcError A E}
    (h : resolveUrlField ops man u = .error pe) :
    pe = .err .InvalidUnknownUrl ∨ ∃ e, pe = .err (.UrlParsing e) := by
  cases u with
  | Relative r =>
    cases hj : joinE ops man r <;> simp [resolveUrlField, hj] at h
    subst h
    exact Or.inr (joinE_err_shape hj)
  | Unknown =>
    simp [resolveUrlField] at h
    exact Or.inl h.symm
  | Absolute v => simp [resolveUrlField] at h

theorem mapME_ok_forall₂ {α β : Type} {f : α → Except (ProcError A E) β}
    {xs : List α} {ys : List β} (h : mapME f xs = .ok ys) :
    List.Forall₂ (fun x y => f x = .ok y) xs ys := by
  induction xs generalizing ys with
  | nil =>
    simp [mapME] at h
    subst h
    exact List.Forall₂.nil
  | cons x xs ih =>
    cases hf : f x <;> simp [mapME, hf] at h
    cases hm : mapME f xs <;> rw [hm] at h <;> simp at h
    subst h
    exact List.Forall₂.cons hf (ih hm)

theorem mapME_ok_of_id {α : Type} {f : α → Except (ProcError A E) α}
    {xs : List α} (h : ∀ x ∈ xs, f x = .ok x) : mapME f xs = .ok xs := by
  induction xs with
  | nil => rfl
  | cons x xs ih =>
    simp [mapME, h x (List.mem_cons_self x xs),
      ih fun y hy => h y (List.mem_cons_of_mem x hy)]

theorem mapME_ok_total {α β : Type} {f : α → Except (ProcError A E) β}
    {xs : List α} (h : ∀ x ∈ xs, ∃ y, f x = .ok y) : ∃ ys, mapME f xs = .ok ys := by
  induction xs with
  | nil => exact ⟨[], rfl⟩
  | cons x xs ih =>
    obtain ⟨y, hy⟩ := h x (List.mem_cons_self x xs)
    obtain ⟨ys, hys⟩ := ih fun z hz => h z (List.mem_cons_of_mem x hz)
    exact ⟨y :: ys, by simp [mapME, hy, hys]⟩

theorem mapME_err_first {α β : Type} {f : α → Except (ProcError A E) β}
    {xs : List α} {p : α → Prop} {e₀ : ProcError A E}
    (hp : ∀ x ∈ xs, p x → f x = .error e₀)
    (hq : ∀ x ∈ xs, ¬ p x → ∃ y, f x = .ok y)
    (hx : ∃ x ∈ xs, p x) : mapME f xs = .error e₀ := by
  induction xs with
  | nil => simp at hx
  | cons x xs ih =>
    by_cases hpx : p x
    · simp [mapME, hp x (List.mem_cons_self x xs) hpx]
    · obtain ⟨y, hy⟩ := hq x (List.mem_cons_self x xs) hpx
      obtain ⟨z, hz, hpz⟩ := hx
      rcases List.mem_cons.mp hz with rfl | hz'
      · exact absurd hpz hpx
      · have hr := ih (fun a ha => hp a (List.mem_cons_of_mem x ha))
          (fun a ha => hq a (List.mem_cons_of_mem x ha)) ⟨z, hz', hpz⟩
        simp [mapME, hy, hr]

theorem mapME_err_shape {α β : Type} {f : α → Except (ProcError A E) β}
    {xs : List α} {pe : ProcError A E} {P : ProcError A E → Prop}
    (hf : ∀ x ∈ xs, ∀ q, f x = .error q → P q)
    (h : mapME f xs = .error pe) : P pe := by
  induction xs with
  | nil => simp [mapME] at h
  | cons x xs ih =>
    cases hfx : f x with
    | error q =>
      simp [mapME, hfx] at h
      subst h
      exact hf x (List.mem_cons_self x xs) q hfx
    | ok y =>
      simp [mapME, hfx] at h
      cases hm : mapME f xs <;> rw [hm] at h <;> simp at h
      subst h
      exact ih (fun a ha => hf a (List.mem_cons_of_mem x ha)) hm

theorem resolveExternalApplication_ok_elim {man : A}
    {ea ea' : ExternalApplicationResource A}
    (h : resolveExternalApplication ops man ea = .ok ea') :
    (ea.url = none ∧ ea' = ea) ∨
    (∃ u u', ea.url = some u ∧ resolveUrlField ops man u = .ok u' ∧
      ea' = { ea with url := some u' }) := by
  cases hu : ea.url with
  | none =>
    simp [resolveExternalApplication, hu] at h
    exact Or.inl ⟨rfl, h.symm⟩
  | some u =>
    cases hf : resolveUrlField ops man u <;> simp [resolveExternalApplication, hu, hf] at h
    exact Or.inr ⟨u, _, rfl, hf, h.symm⟩

theorem resolveExternalApplication_id {man : A} {ea : ExternalApplicationResource A}
    (h : ea.url = none ∨ ∃ v, ea.url = some (Url.Absolute v)) :
    resolveExternalApplication ops man ea = .ok ea := by
  obtain ⟨platform, mv, u, i, f⟩ := ea
  rcases h with h | ⟨v, h⟩ <;> simp only at h <;> subst h <;> rfl

theorem resolveExternalApplication_unknown {man : A} {ea : ExternalApplicationResource A}
    (h : ea.url = some Url.Unknown) :
    resolveExternalApplication ops man ea = .error (.err .InvalidUnknownUrl) := by
  simp [resolveExternalApplication, h, resolveUrlField_unknown]

theorem resolveExternalApplication_ok_total {q : A} (hT : joinsTotal ops)
    {ea : ExternalApplicationResource A} (h : ea.url ≠ some Url.Unknown) :
    ∃ ea', resolveExternalApplication ops q ea = .ok ea' := by
  cases hu : ea.url with
  | none => exact ⟨ea, by simp [resolveExternalApplication, hu]⟩
  | some u =>
    cases u with
    | Absolute v =>
      refine ⟨{ ea with url := some (Url.Absolute v) }, ?_⟩
      simp [resolveExternalApplication, hu, resolveUrlField_abs]
    | Relative r =>
      obtain ⟨v, hv⟩ := hT q r
      refine ⟨{ ea with url := some (Url.Absolute v) }, ?_⟩
      simp [resolveExternalApplication, hu, resolveUrlField_rel_ok hv]
    | Unknown => exact absurd hu h

theorem resolveProtocolHandler_ok_elim {man : A} {ph ph' : ProtocolHandlerResource A}
    (h : resolveProtocolHandler ops man ph = .ok ph') :
    ∃ u', resolveUrlField ops man ph.url = .ok u' ∧ ph' = { ph with url := u' } := by
  cases hf : resolveUrlField ops man ph.url <;> simp [resolveProtocolHandler, hf] at h
  exact ⟨_, rfl, h.symm⟩

theorem resolveProtocolHandler_id {man : A} {ph : ProtocolHandlerResource A}
    (h : ph.url.IsAbs) : resolveProtocolHandler ops man ph = .ok ph := by
  obtain ⟨v, hv⟩ := h
  obtain ⟨p, u⟩ := ph
  simp only at hv
  subst hv
  rfl

theorem resolveIcon_ok_elim {man : A} {icon icon' : IconResource A}
    (h : resolveIcon ops man icon = .ok icon') :
    ∃ u', resolveUrlField ops man icon.src = .ok u' ∧ icon' = { icon with src := u' } := by
  cases hf : resolveUrlField ops man icon.src <;> simp [resolveIcon, hf] at h
  exact ⟨_, rfl, h.symm⟩

theorem resolveIcon_id {man : A} {icon : IconResource A}
    (h : icon.src.IsAbs) : resolveIcon ops man icon = .ok icon := by
  obtain ⟨v, hv⟩ := h
  obtain ⟨src, ty, sz, pp, lb⟩ := icon
  simp only at hv
  subst hv
  rfl

theorem resolveScreenshot_ok_elim {man : A} {s s' : ScreenshotResource A}
    (h : resolveScreenshot ops man s = .ok s') :
    ∃ u', resolveUrlField ops man s.src = .ok u' ∧ s' = { s with src := u' } := by
  cases hf : resolveUrlField ops man s.src <;> simp [resolveScreenshot, hf] at h
  exact ⟨_, rfl, h.symm⟩

theorem resolveScreenshot_id {man : A} {s : ScreenshotResource A}
    (h : s.src.IsAbs) : resolveScreenshot ops man s = .ok s := by
  obtain ⟨v, hv⟩ := h
  obtain ⟨src, ty, sz, pf⟩ := s
  simp only at hv
  subst hv
  rfl

theorem resolveShortcut_ok_elim {man : A} {s s' : ShortcutResource A}
    (h : resolveShortcut ops man s = .ok s') :
    ∃ u' ics, resolveUrlField ops man s.url = .ok u' ∧
      mapME (resolveIcon ops man) s.icons = .ok ics ∧
      s' = { s with url := u', icons := ics } := by
  cases hf : resolveUrlField ops man s.url <;> simp [resolveShortcut, hf] at h
  cases hm : mapME (resolveIcon ops man) s.icons <;> rw [hm] at h <;> simp at h
  exact ⟨_, _, rfl, rfl, h.symm⟩

theorem resolveShortcut_id {man : A} {s : ShortcutResource A}
    (h : s.url.IsAbs ∧ ∀ i ∈ s.icons, i.src.IsAbs) :
    resolveShortcut ops man s = .ok s := by
  obtain ⟨⟨v, hv⟩, hi⟩ := h
  have hics : mapME (resolveIcon ops man) s.icons = .ok s.icons :=
    mapME_ok_of_id fun i him => resolveIcon_id (hi i him)
  obtain ⟨n, sn, d, u, ics⟩ := s
  simp only at hv hics
  subst hv
  simp [resolveShortcut, resolveUrlField_abs, hics]

theorem resolveShareTargetOpt_ok_elim {man : A}
    {st st' : Option (ShareTargetResource A)}
    (h : resolveShareTargetOpt ops man st = .ok st') :
    (st = none ∧ st' = none) ∨
    (∃ t u', st = some t ∧ resolveUrlField ops man t.action = .ok u' ∧
      st' = some { t with action := u' }) := by
  cases st with
  | none =>
    simp [resolveShareTargetOpt] at h
    exact Or.inl ⟨rfl, h.symm⟩
  | some t =>
    cases hf : resolveUrlField ops man t.action <;>
      simp [resolveShareTargetOpt, resolveShareTarget, hf] at h
    exact Or.inr ⟨t, _, rfl, hf, h.symm⟩

theorem resolveShareTargetOpt_id {man : A} {st : Option (ShareTargetResource A)}
    (h : ∀ t ∈ st, (ShareTargetResource.action t).IsAbs) :
    resolveShareTargetOpt ops man st = .ok st := by
  cases st with
  | none => rfl
  | some t =>
    obtain ⟨v, hv⟩ := h t rfl
    obtain ⟨a, mth, enc, prm⟩ := t
    simp only at hv
    subst hv
    rfl

theorem resolveUrlField_ok_total {q : A} (hT : joinsTotal ops) {u : Url A}
    (h : u ≠ Url.Unknown) : ∃ u', resolveUrlField ops q u = .ok u' := by
  cases u with
  | Absolute v => exact ⟨_, resolveUrlField_abs⟩
  | Relative r =>
    obtain ⟨v, hv⟩ := hT q r
    exact ⟨_, resolveUrlField_rel_ok hv⟩
  | Unknown => exact absurd rfl h

theorem resolveProtocolHandler_unknown {man : A} {ph : ProtocolHandlerResource A}
    (h : ph.url = Url.Unknown) :
    resolveProtocolHandler ops man ph = .error (.err .InvalidUnknownUrl) := by
  simp [resolveProtocolHandler, h, resolveUrlField_unknown]

theorem resolveProtocolHandler_ok_total {q : A} (hT : joinsTotal ops)
    {ph : ProtocolHandlerResource A} (h : ph.url ≠ Url.Unknown) :
    ∃ ph', resolveProtocolHandler ops q ph = .ok ph' := by
  obtain ⟨u', hu'⟩ := resolveUrlField_ok_total (q := q) hT h
  refine ⟨{ ph with url := u' }, ?_⟩
  simp [resolveProtocolHandler, hu']

theorem resolveIcon_unknown {man : A} {icon : IconResource A}
    (h : icon.src = Url.Unknown) :
    resolveIcon ops man icon = .error (.err .InvalidUnknownUrl) := by
  simp [resolveIcon, h, resolveUrlField_unknown]

theorem resolveIcon_ok_total {q : A} (hT : joinsTotal ops)
    {icon : IconResource A} (h : icon.src ≠ Url.Unknown) :
    ∃ icon', resolveIcon ops q icon = .ok icon' := by
  obtain ⟨u', hu'⟩ := resolveUrlField_ok_total (q := q) hT h
  refine ⟨{ icon with src := u' }, ?_⟩
  simp [resolveIcon, hu']

theorem resolveScreenshot_unknown {man : A} {sh : ScreenshotResource A}
    (h : sh.src = Url.Unknown) :
    resolveScreenshot ops man sh = .error (.err .InvalidUnknownUrl) := by
  simp [resolveScreenshot, h, resolveUrlField_unknown]

theorem resolveScreenshot_ok_total {q : A} (hT : joinsTotal ops)
    {sh : ScreenshotResource A} (h : sh.src ≠ Url.Unknown) :
    ∃ sh', resolveScreenshot ops q sh = .ok sh' := by
  obtain ⟨u', hu'⟩ := resolveUrlField_ok_total (q := q) hT h
  refine ⟨{ sh with src := u' }, ?_⟩
  simp [resolveScreenshot, hu']

theorem resolveShortcut_unknown {q : A} (hT : joinsTotal ops) {s : ShortcutResource A}
    (h : s.url = Url.Unknown ∨ ∃ i ∈ s.icons, i.src = Url.Unknown) :
    resolveShortcut ops q s = .error (.err .InvalidUnknownUrl) := by
  by_cases hu : s.url = Url.Unknown
  · simp [resolveShortcut, hu, resolveUrlField_unknown]
  · rcases h with h | ⟨i, hi, hsrc⟩
    · exact absurd h hu
    · obtain ⟨u', hu'⟩ := resolveUrlField_ok_total (q := q) hT hu
      have hicons : mapME (resolveIcon ops q) s.icons = .error (.err .InvalidUnknownUrl) :=
        mapME_err_first (p := fun i => i.src = Url.Unknown)
          (fun a _ ha => resolveIcon_unknown ha)
          (fun a _ ha => resolveIcon_ok_total hT ha)
          ⟨i, hi, hsrc⟩
      simp [resolveShortcut, hu', hicons]

theorem resolveShortcut_ok_total {q : A} (hT : joinsTotal ops)
    {s : ShortcutResource A}
    (hu : s.url ≠ Url.Unknown) (hi : ∀ i ∈ s.icons, i.src ≠ Url.Unknown) :
    ∃ s', resolveShortcut ops q s = .ok s' := by
  obtain ⟨u', hu'⟩ := resolveUrlField_ok_total (q := q) hT hu
  obtain ⟨ics, hics⟩ := mapME_ok_total fun i him => resolveIcon_ok_total (q := q) hT (hi i him)
  refine ⟨{ s with url := u', icons := ics }, ?_⟩
  simp [resolveShortcut, hu', hics]

theorem resolveShareTargetOpt_unknown {man : A} {t : ShareTargetResource A}
    (ha : t.action = Url.Unknown) :
    resolveShareTargetOpt ops man (some t) = .error (.err .InvalidUnknownUrl) := by
  simp [resolveShareTargetOpt, resolveShareTarget, ha, resolveUrlField_unknown]

theorem resolveShareTargetOpt_ok_total {q : A} (hT : joinsTotal ops)
    {st : Option (ShareTargetResource A)}
    (h : ∀ t ∈ st, ShareTargetResource.action t ≠ Url.Unknown) :
    ∃ st', resolveShareTargetOpt ops q st = .ok st' := by
  cases st with
  | none => exact ⟨none, rfl⟩
  | some t =>
    obtain ⟨u', hu'⟩ := resolveUrlField_ok_total (q := q) hT (h t rfl)
    refine ⟨some { t with action := u' }, ?_⟩
    simp [resolveShareTargetOpt, resolveShareTarget, hu']

theorem resolveUrlField_err_isErr {man : A} {u : Url A} {pe : ProcError A E}
    (h : resolveUrlField ops man u = .error pe) : ∃ e, pe = .err e := by
  rcases resolveUrlField_err_shape h with h' | ⟨e, h'⟩
  · exact ⟨_, h'⟩
  · exact ⟨_, h'⟩

theorem resolveExternalApplication_err_isErr {man : A} {ea : ExternalApplicationResource A}
    {pe : ProcError A E} (h : resolveExternalApplication ops man ea = .error pe) :
    ∃ e, pe = .err e := by
  cases hu : ea.url with
  | none => simp [resolveExternalApplication, hu] at h
  | some u =>
    cases hf : resolveUrlField ops man u <;> simp [resolveExternalApplication, hu, hf] at h
    subst h
    exact resolveUrlField_err_isErr hf

theorem resolveProtocolHandler_err_isErr {man : A} {ph : ProtocolHandlerResource A}
    {pe : ProcError A E} (h : resolveProtocolHandler ops man ph = .error pe) :
    ∃ e, pe = .err e := by
  cases hf : resolveUrlField ops man ph.url <;> simp [resolveProtocolHandler, hf] at h
  subst h
  exact resolveUrlField_err_isErr hf

theorem resolveIcon_err_isErr {man : A} {icon : IconResource A}
    {pe : ProcError A E} (h : resolveIcon ops man icon = .error pe) :
    ∃ e, pe = .err e := by
  cases hf : resolveUrlField ops man icon.src <;> simp [resolveIcon, hf] at h
  subst h
  exact resolveUrlField_err_isErr hf

theorem resolveScreenshot_err_isErr {man : A} {sh : ScreenshotResource A}
    {pe : ProcError A E} (h : resolveScreenshot ops man sh = .error pe) :
    ∃ e, pe = .err e := by
  cases hf : resolveUrlField ops man sh.src <;> simp [resolveScreenshot, hf] at h
  subst h
  exact resolveUrlField_err_isErr hf

theorem resolveShortcut_err_isErr {man : A} {s : ShortcutResource A}
    {pe : ProcError A E} (h : resolveShortcut ops man s = .error pe) :
    ∃ e, pe = .err e := by
  cases hf : resolveUrlField ops man s.url <;> simp [resolveShortcut, hf] at h
  · subst h
    exact resolveUrlField_err_isErr hf
  · cases hm : mapME (resolveIcon ops man) s.icons <;> rw [hm] at h <;> simp at h
    subst h
    exact mapME_err_shape (fun i _ q hq => resolveIcon_err_isErr hq) hm

theorem resolveShareTargetOpt_err_isErr {man : A} {st : Option (ShareTargetResource A)}
    {pe : ProcError A E} (h : resolveShareTargetOpt ops man st = .error pe) :
    ∃ e, pe = .err e := by
  cases st with
  | none => simp [resolveShareTargetOpt] at h
  | some t =>
    cases hf : resolveUrlField ops man t.action <;>
      simp [resolveShareTargetOpt, resolveShareTarget, hf] at h
    subst h
    exact resolveUrlField_err_isErr hf

theorem resolveUrls_ok_elim {m m' : WebAppManifest A} {doc man : A}
    (h : resolveUrls ops m doc man = .ok m') :
    ∃ su sc ras phs shs st ics scrs,
      resolveStartUrl ops doc man m.start_url = .ok su ∧
      resolveScope ops man su m.scope = .ok sc ∧
      mapME (resolveExternalApplication ops man) m.related_applications = .ok ras ∧
      mapME (resolveProtocolHandler ops man) m.protocol_handlers = .ok phs ∧
      mapME (resolveShortcut ops man) m.shortcuts = .ok shs ∧
      resolveShareTargetOpt ops man m.share_target = .ok st ∧
      mapME (resolveIcon ops man) m.icons = .ok ics ∧
      mapME (resolveScreenshot ops man) m.screenshots = .ok scrs ∧
      m' = { m with start_url := su, scope := sc, related_applications := ras,
                    protocol_handlers := phs, shortcuts := shs, share_target := st,
                    icons := ics, screenshots := scrs } := by
  unfold resolveUrls at h
  repeat' split at h
  all_goals simp_all

theorem resolveUrls_ok_intro {m : WebAppManifest A} {doc man : A} {su sc : Url A}
    {ras : List (ExternalApplicationResource A)} {phs : List (ProtocolHandlerResource A)}
    {shs : List (ShortcutResource A)} {st : Option (ShareTargetResource A)}
    {ics : List (IconResource A)} {scrs : List (ScreenshotResource A)}
    (h1 : resolveStartUrl ops doc man m.start_url = .ok su)
    (h2 : resolveScope ops man su m.scope = .ok sc)
    (h3 : mapME (resolveExternalApplication ops man) m.related_applications = .ok ras)
    (h4 : mapME (resolveProtocolHandler ops man) m.protocol_handlers = .ok phs)
    (h5 : mapME (resolveShortcut ops man) m.shortcuts = .ok shs)
    (h6 : resolveShareTargetOpt ops man m.share_target = .ok st)
    (h7 : mapME (resolveIcon ops man) m.icons = .ok ics)
    (h8 : mapME (resolveScreenshot ops man) m.screenshots = .ok scrs) :
    resolveUrls ops m doc man = .ok { m with
      start_url := su, scope := sc,
      related_applications := ras, protocol_handlers := phs, shortcuts := shs,
      share_target := st, icons := ics, screenshots := scrs } := by
  unfold resolveUrls
  simp only [h1, h2, h3, h4, h5, h6, h7, h8]

theorem resolveUrls_err_start {m : WebAppManifest A} {doc man : A} {e : ProcError A E}
    (h : resolveStartUrl ops doc man m.start_url = .error e) :
    resolveUrls ops m doc man = .error e := by
  unfold resolveUrls
  rw [h]

theorem resolveUrls_err_isErr {m : WebAppManifest A} {doc man : A} {pe : ProcError A E}
    (h : resolveUrls ops m doc man = .error pe) : ∃ e, pe = .err e := by
  unfold resolveUrls at h
  cases h1 : resolveStartUrl ops doc man m.start_url with
  | error e =>
    rw [h1] at h
    simp at h
    subst h
    obtain ⟨e', he⟩ := resolveStartUrl_err_shape h1
    exact ⟨_, he⟩
  | ok su =>
  rw [h1] at h
  simp at h
  cases h2 : resolveScope ops man su m.scope with
  | error e =>
    rw [h2] at h
    simp at h
    subst h
    obtain ⟨e', he⟩ := resolveScope_err_shape (resolveStartUrl_ok_isAbs h1) h2
    exact ⟨_, he⟩
  | ok sc =>
  rw [h2] at h
  simp at h
  cases h3 : mapME (resolveExternalApplication ops man) m.related_applications with
  | error e =>
    rw [h3] at h
    simp at h
    subst h
    exact mapME_err_shape (fun a _ q hq => resolveExternalApplication_err_isErr hq) h3
  | ok ras =>
  rw [h3] at h
  simp at h
  cases h4 : mapME (resolveProtocolHandler ops man) m.protocol_handlers with
  | error e =>
    rw [h4] at h
    simp at h
    subst h
    exact mapME_err_shape (fun a _ q hq => resolveProtocolHandler_err_isErr hq) h4
  | ok phs =>
  rw [h4] at h
  simp at h
  cases h5 : mapME (resolveShortcut ops man) m.shortcuts with
  | error e =>
    rw [h5] at h
    simp at h
    subst h
    exact mapME_err_shape (fun a _ q hq => resolveShortcut_err_isErr hq) h5
  | ok shs =>
  rw [h5] at h
  simp at h
  cases h6 : resolveShareTargetOpt ops man m.share_target with
  | error e =>
    rw [h6] at h
    simp at h
    subst h
    exact resolveShareTargetOpt_err_isErr h6
  | ok st =>
  rw [h6] at h
  simp at h
  cases h7 : mapME (resolveIcon ops man) m.icons with
  | error e =>
    rw [h7] at h
    simp at h
    subst h
    exact mapME_err_shape (fun a _ q hq => resolveIcon_err_isErr hq) h7
  | ok ics =>
  rw [h7] at h
  simp at h
  cases h8 : mapME (resolveScreenshot ops man) m.screenshots with
  | error e =>
    rw [h8] at h
    simp at h
    subst h
    exact mapME_err_shape (fun a _ q hq => resolveScreenshot_err_isErr hq) h8
  | ok scrs =>
    rw [h8] at h
    simp at h

theorem process_err_of_resolve {m : WebAppManifest A} {doc man : A} {e : ProcError A E}
    (h : resolveUrls ops m doc man = .error e) : process ops m doc man = .error e := by
  unfold process
  rw [h]

theorem process_of_resolve_ok {m m' : WebAppManifest A} {doc man : A}
    (h : resolveUrls ops m doc man = .ok m') :
    process ops m doc man = (match validate ops m' doc with
      | .error e => .error e
      | .ok _ => .ok m') := by
  unfold process
  rw [h]

theorem process_ok_elim {m m' : WebAppManifest A} {doc man : A}
    (h : process ops m doc man = .ok m') :
    resolveUrls ops m doc man = .ok m' ∧ validate ops m' doc = .ok () := by
  unfold process at h
  cases hr : resolveUrls ops m doc man with
  | error e => rw [hr] at h; simp at h
  | ok mr =>
    rw [hr] at h
    simp at h
    cases hv : validate ops mr doc with
    | error e => rw [hv] at h; simp at h
    | ok a =>
      rw [hv] at h
      simp at h
      subst h
      cases a
      exact ⟨rfl, hv⟩

theorem forall₂_mem_right {α β : Type} {R : α → β → Prop} {xs : List α} {ys : List β}
    (h : List.Forall₂ R xs ys) {y : β} (hy : y ∈ ys) : ∃ x ∈ xs, R x y := by
  induction h with
  | nil => simp at hy
  | cons hr _ ih =>
    rcases List.mem_cons.mp hy with rfl | hy'
    · exact ⟨_, List.mem_cons_self _ _, hr⟩
    · obtain ⟨x, hx, hxr⟩ := ih hy'
      exact ⟨x, List.mem_cons_of_mem _ hx, hxr⟩

theorem exists_abs_list {ρ : Type} {acc : ρ → Url A} {rs : List ρ}
    (h : ∀ r ∈ rs, (acc r).IsAbs) : ∃ us : List A, rs.map acc = us.map Url.Absolute := by
  induction rs with
  | nil => exact ⟨[], rfl⟩
  | cons r rs ih =>
    obtain ⟨v, hv⟩ := h r (List.mem_cons_self _ _)
    obtain ⟨us, hus⟩ := ih fun x hx => h x (List.mem_cons_of_mem _ hx)
    exact ⟨v :: us, by simp [hv, hus]⟩

theorem exists_abs_opt {o : Option (ShareTargetResource A)}
    (h : ∀ t ∈ o, (ShareTargetResource.action t).IsAbs) :
    ∃ sta : Option A, o.map ShareTargetResource.action = sta.map Url.Absolute := by
  cases o with
  | none => exact ⟨none, rfl⟩
  | some t =>
    obtain ⟨v, hv⟩ := h t rfl
    exact ⟨some v, by simp [hv]⟩

theorem resolveUrls_ok_resolved {m m' : WebAppManifest A} {doc man : A}
    (h : resolveUrls ops m doc man = .ok m') : manifestResolved m' := by
  obtain ⟨su, sc, ras, phs, shs, st, ics, scrs, h1, h2, h3, h4, h5, h6, h7, h8, rfl⟩ :=
    resolveUrls_ok_elim h
  refine ⟨resolveStartUrl_ok_isAbs h1, resolveScope_ok_isAbs h2, ?_, ?_, ?_, ?_, ?_, ?_⟩
  · intro ea hea
    obtain ⟨ea₀, _, hr⟩ := forall₂_mem_right (mapME_ok_forall₂ h3) hea
    rcases resolveExternalApplication_ok_elim hr with ⟨hn, rfl⟩ | ⟨u, u', _, hf, rfl⟩
    · exact Or.inl hn
    · obtain ⟨v, hv⟩ := resolveUrlField_ok_isAbs hf
      exact Or.inr ⟨v, by simp [hv]⟩
  · intro ph hph
    obtain ⟨ph₀, _, hr⟩ := forall₂_mem_right (mapME_ok_forall₂ h4) hph
    obtain ⟨u', hf, rfl⟩ := resolveProtocolHandler_ok_elim hr
    exact resolveUrlField_ok_isAbs hf
  · intro sh hsh
    obtain ⟨sh₀, _, hr⟩ := forall₂_mem_right (mapME_ok_forall₂ h5) hsh
    obtain ⟨u', ics', hf, hm, rfl⟩ := resolveShortcut_ok_elim hr
    refine ⟨resolveUrlField_ok_isAbs hf, ?_⟩
    intro i hi
    obtain ⟨i₀, _, hir⟩ := forall₂_mem_right (mapME_ok_forall₂ hm) hi
    obtain ⟨v', hg, rfl⟩ := resolveIcon_ok_elim hir
    exact resolveUrlField_ok_isAbs hg
  · intro t ht
    rcases resolveShareTargetOpt_ok_elim h6 with ⟨_, hn⟩ | ⟨t₀, u', _, hf, hsome⟩
    · simp only [hn] at ht
      exact absurd ht (by simp)
    · simp only [hsome] at ht
      obtain rfl := Option.mem_some_iff.mp ht
      exact resolveUrlField_ok_isAbs hf
  · intro i hi
    obtain ⟨i₀, _, hr⟩ := forall₂_mem_right (mapME_ok_forall₂ h7) hi
    obtain ⟨u', hf, rfl⟩ := resolveIcon_ok_elim hr
    exact resolveUrlField_ok_isAbs hf
  · intro sh hsh
    obtain ⟨sh₀, _, hr⟩ := forall₂_mem_right (mapME_ok_forall₂ h8) hsh
    obtain ⟨u', hf, rfl⟩ := resolveScreenshot_ok_elim hr
    exact resolveUrlField_ok_isAbs hf

theorem resolveUrls_id_of_resolved {m : WebAppManifest A} {doc man : A}
    (h : manifestResolved m) : resolveUrls ops m doc man = .ok m := by
  obtain ⟨⟨sv, hs⟩, ⟨cv, hc⟩, hra, hph, hsc, hst, hic, hscr⟩ := h
  have h1 : resolveStartUrl ops doc man m.start_url = .ok m.start_url := by
    rw [hs]; rfl
  have h2 : resolveScope ops man m.start_url m.scope = .ok m.scope := by
    rw [hc]; rfl
  have h3 : mapME (resolveExternalApplication ops man) m.related_applications
      = .ok m.related_applications :=
    mapME_ok_of_id fun ea hea => resolveExternalApplication_id (hra ea hea)
  have h4 : mapME (resolveProtocolHandler ops man) m.protocol_handlers
      = .ok m.protocol_handlers :=
    mapME_ok_of_id fun ph hph' => resolveProtocolHandler_id (hph ph hph')
  have h5 : mapME (resolveShortcut ops man) m.shortcuts = .ok m.shortcuts :=
    mapME_ok_of_id fun sh hsh => resolveShortcut_id (hsc sh hsh)
  have h6 : resolveShareTargetOpt ops man m.share_target = .ok m.share_target :=
    resolveShareTargetOpt_id hst
  have h7 : mapME (resolveIcon ops man) m.icons = .ok m.icons :=
    mapME_ok_of_id fun i hi => resolveIcon_id (hic i hi)
  have h8 : mapME (resolveScreenshot ops man) m.screenshots = .ok m.screenshots :=
    mapME_ok_of_id fun sh hsh => resolveScreenshot_id (hscr sh hsh)
  exact resolveUrls_ok_intro h1 h2 h3 h4 h5 h6 h7 h8

theorem checkScopeUrl_abs {sc u : A} :
    checkScopeUrl ops sc (.Absolute u) =
      (if violatesScope ops sc u then .error (.err (.NotWithinScope u sc)) else .ok ()) := rfl

theorem wamFindAppend {α : Type} {l₁ l₂ : List α} {p : α → Bool} :
    (l₁ ++ l₂).find? p = ((l₁.find? p).orElse fun _ => l₂.find? p) := by
  induction l₁ with
  | nil => simp
  | cons a l ih =>
    by_cases h : p a
    · simp [List.find?_cons_of_pos _ h]
    · simp [List.find?_cons_of_neg _ h, ih]

theorem mapME_checkScope_err {ρ : Type} {acc : ρ → Url A} {rs : List ρ} {us : List A}
    {sc u : A} (hmap : rs.map acc = us.map Url.Absolute)
    (hfind : us.find? (fun x => violatesScope ops sc x) = some u) :
    mapME (fun r => checkScopeUrl ops sc (acc r)) rs =
      .error (.err (.NotWithinScope u sc)) := by
  induction rs generalizing us with
  | nil =>
    cases us with
    | nil => simp at hfind
    | cons v vs => simp at hmap
  | cons r rs ih =>
    cases us with
    | nil => simp at hmap
    | cons v vs =>
      simp at hmap
      obtain ⟨hv, hrest⟩ := hmap
      by_cases hviol : violatesScope ops sc v
      · rw [List.find?_cons_of_pos _ hviol] at hfind
        injection hfind with hvu
        subst hvu
        simp [mapME, hv, checkScopeUrl_abs, hviol]
      · rw [List.find?_cons_of_neg _ hviol] at hfind
        simp [mapME, hv, checkScopeUrl_abs, hviol, ih hrest hfind]

theorem mapME_checkScope_ok {ρ : Type} {acc : ρ → Url A} {rs : List ρ} {us : List A}
    {sc : A} (hmap : rs.map acc = us.map Url.Absolute)
    (hfind : us.find? (fun x => violatesScope ops sc x) = none) :
    ∃ l, mapME (fun r => checkScopeUrl ops sc (acc r)) rs = .ok l := by
  induction rs generalizing us with
  | nil => exact ⟨[], rfl⟩
  | cons r rs ih =>
    cases us with
    | nil => simp at hmap
    | cons v vs =>
      simp at hmap
      obtain ⟨hv, hrest⟩ := hmap
      by_cases hviol : violatesScope ops sc v
      · rw [List.find?_cons_of_pos _ hviol] at hfind
        simp at hfind
      · rw [List.find?_cons_of_neg _ hviol] at hfind
        obtain ⟨l, hl⟩ := ih hrest hfind
        exact ⟨() :: l, by simp [mapME, hv, checkScopeUrl_abs, hviol, hl]⟩

theorem scopedResourceChecks_eq {m : WebAppManifest A} {sc : A} {phs shs : List A}
    {sta : Option A}
    (h6 : m.protocol_handlers.map ProtocolHandlerResource.url = phs.map Url.Absolute)
    (h7 : m.shortcuts.map ShortcutResource.url = shs.map Url.Absolute)
    (h8 : m.share_target.map ShareTargetResource.action = sta.map Url.Absolute) :
    scopedResourceChecks ops sc m =
      (match (phs ++ shs ++ sta.toList).find? (fun x => violatesScope ops sc x) with
       | some u => .error (.err (.NotWithinScope u sc))
       | none => .ok ()) := by
  cases hp : phs.find? (fun x => violatesScope ops sc x) with
  | some u =>
    have hloop := mapME_checkScope_err h6 hp
    have happ : (phs ++ (shs ++ sta.toList)).find? (fun x => violatesScope ops sc x)
        = some u := by
      rw [wamFindAppend, hp]
      rfl
    simp only [List.append_assoc, happ]
    simp [scopedResourceChecks, hloop]
  | none =>
    obtain ⟨l1, hl1⟩ := mapME_checkScope_ok h6 hp
    cases hs : shs.find? (fun x => violatesScope ops sc x) with
    | some u =>
      have hloop := mapME_checkScope_err h7 hs
      have happ : (phs ++ (shs ++ sta.toList)).find? (fun x => violatesScope ops sc x)
          = some u := by
        rw [wamFindAppend, hp, wamFindAppend, hs]
        rfl
      simp only [List.append_assoc, happ]
      simp [scopedResourceChecks, hl1, hloop]
    | none =>
      obtain ⟨l2, hl2⟩ := mapME_checkScope_ok h7 hs
      cases hst : m.share_target with
      | none =>
        have hsta : sta = none := by
          rw [hst] at h8
          cases sta <;> simp_all
        subst hsta
        have happ : (phs ++ (shs ++ ([] : List A))).find?
            (fun x => violatesScope ops sc x) = none := by
          rw [wamFindAppend, hp, wamFindAppend, hs]
          rfl
        simp only [List.append_assoc, Option.toList_none, happ]
        simp [scopedResourceChecks, hl1, hl2, hst]
      | some t =>
        obtain ⟨v, hsta, hact⟩ : ∃ v, sta = some v ∧ t.action = Url.Absolute v := by
          rw [hst] at h8
          cases sta with
          | none => simp_all
          | some v =>
            simp at h8
            exact ⟨v, rfl, h8⟩
        subst hsta
        by_cases hviol : violatesScope ops sc v
        · have happ : (phs ++ (shs ++ [v])).find?
              (fun x => violatesScope ops sc x) = some v := by
            rw [wamFindAppend, hp, wamFindAppend, hs]
            simp [List.find?_cons_of_pos _ hviol]
          simp only [List.append_assoc, Option.toList_some, happ]
          simp [scopedResourceChecks, hl1, hl2, hst, hact, checkScopeUrl_abs, hviol]
        · have happ : (phs ++ (shs ++ [v])).find?
              (fun x => violatesScope ops sc x) = none := by
            rw [wamFindAppend, hp, wamFindAppend, hs]
            simp [List.find?_cons_of_neg _ hviol]
          simp only [List.append_assoc, Option.toList_some, happ]
          simp [scopedResourceChecks, hl1, hl2, hst, hact, checkScopeUrl_abs, hviol]

theorem validate_eq {m : WebAppManifest A} {doc : A} {sc su : A}
    (h1 : m.scope = .Absolute sc) (h2 : m.start_url = .Absolute su) :
    validate ops m doc =
      (if ops.origin su != ops.origin doc then .error (.err (.NotSameOrigin su doc))
       else if violatesScope ops sc su then .error (.err (.NotWithinScope su sc))
       else scopedResourceChecks ops sc m) := by
  unfold validate
  rw [h1, h2]

end Lemmas

section MoreLemmas

variable {A E : Type} {ops : UrlOps A E}

theorem process_ok_intro {m m' : WebAppManifest A} {doc man : A}
    (hr : resolveUrls ops m doc man = .ok m')
    (hv : validate ops m' doc = .ok ()) : process ops m doc man = .ok m' := by
  rw [process_of_resolve_ok hr, hv]

theorem resolveStartUrl_ok_total {d q : A} (hT : joinsTotal ops) (s : Url A) :
    ∃ su, resolveStartUrl ops d q s = .ok su := by
  cases s with
  | Relative r =>
    obtain ⟨v, hv⟩ := hT q r
    exact ⟨_, resolveStartUrl_rel_ok hv⟩
  | Unknown => exact ⟨_, rfl⟩
  | Absolute u => exact ⟨_, rfl⟩

theorem resolveScope_ok_total {q : A} (hT : joinsTotal ops) {su : Url A}
    (hsu : su.IsAbs) (s : Url A) : ∃ sc, resolveScope ops q su s = .ok sc := by
  obtain ⟨v, rfl⟩ := hsu
  cases s with
  | Relative r =>
    obtain ⟨u, hu⟩ := hT q r
    exact ⟨_, resolveScope_rel_ok hu⟩
  | Unknown =>
    obtain ⟨u, hu⟩ := hT v "."
    exact ⟨_, resolveScope_unknown_ok hu⟩
  | Absolute u => exact ⟨_, rfl⟩

theorem resolveUrls_err_IU {m : WebAppManifest A} {doc man : A}
    (hT : joinsTotal ops) (hU : hasUnknownResourceUrl m) :
    resolveUrls ops m doc man = .error (.err .InvalidUnknownUrl) := by
  obtain ⟨su, h1⟩ := resolveStartUrl_ok_total (d := doc) (q := man) hT m.start_url
  obtain ⟨sc, h2⟩ :=
    resolveScope_ok_total (q := man) hT (resolveStartUrl_ok_isAbs h1) m.scope
  unfold resolveUrls
  simp only [h1, h2]
  by_cases hra : ∃ ea ∈ m.related_applications,
      ExternalApplicationResource.url ea = some Url.Unknown
  · have h3 : mapME (resolveExternalApplication ops man) m.related_applications
        = .error (.err .InvalidUnknownUrl) :=
      mapME_err_first (p := fun ea => ea.url = some Url.Unknown)
        (fun a _ ha => resolveExternalApplication_unknown ha)
        (fun a _ ha => resolveExternalApplication_ok_total hT ha) hra
    simp only [h3]
  · push_neg at hra
    obtain ⟨ras, h3⟩ := mapME_ok_total fun ea hea =>
      resolveExternalApplication_ok_total (q := man) hT (hra ea hea)
    simp only [h3]
    by_cases hph : ∃ ph ∈ m.protocol_handlers, ProtocolHandlerResource.url ph = Url.Unknown
    · have h4 : mapME (resolveProtocolHandler ops man) m.protocol_handlers
          = .error (.err .InvalidUnknownUrl) :=
        mapME_err_first (p := fun ph => ph.url = Url.Unknown)
          (fun a _ ha => resolveProtocolHandler_unknown ha)
          (fun a _ ha => resolveProtocolHandler_ok_total hT ha) hph
      simp only [h4]
    · push_neg at hph
      obtain ⟨phs, h4⟩ := mapME_ok_total fun ph hph' =>
        resolveProtocolHandler_ok_total (q := man) hT (hph ph hph')
      simp only [h4]
      by_cases hsh : ∃ sh ∈ m.shortcuts, ShortcutResource.url sh = Url.Unknown ∨
          ∃ i ∈ ShortcutResource.icons sh, IconResource.src i = Url.Unknown
      · have h5 : mapME (resolveShortcut ops man) m.shortcuts
            = .error (.err .InvalidUnknownUrl) :=
          mapME_err_first
            (p := fun sh => sh.url = Url.Unknown ∨ ∃ i ∈ sh.icons, i.src = Url.Unknown)
            (fun a _ ha => resolveShortcut_unknown hT ha)
            (fun a _ ha => resolveShortcut_ok_total hT
              (fun h => ha (Or.inl h))
              (fun i him h => ha (Or.inr ⟨i, him, h⟩))) hsh
        simp only [h5]
      · push_neg at hsh
        obtain ⟨shs, h5⟩ := mapME_ok_total fun sh hsh' =>
          resolveShortcut_ok_total (q := man) hT (hsh sh hsh').1 (hsh sh hsh').2
        simp only [h5]
        by_cases hst : ∃ t ∈ m.share_target, ShareTargetResource.action t = Url.Unknown
        · obtain ⟨t, ht, hact⟩ := hst
          have ht' : m.share_target = some t := ht
          have h6 : resolveShareTargetOpt ops man m.share_target
              = .error (.err .InvalidUnknownUrl) := by
            rw [ht']
            exact resolveShareTargetOpt_unknown hact
          simp only [h6]
        · push_neg at hst
          obtain ⟨st', h6⟩ := resolveShareTargetOpt_ok_total (q := man) hT hst
          simp only [h6]
          by_cases hic : ∃ i ∈ m.icons, IconResource.src i = Url.Unknown
          · have h7 : mapME (resolveIcon ops man) m.icons
                = .error (.err .InvalidUnknownUrl) :=
              mapME_err_first (p := fun i => i.src = Url.Unknown)
                (fun a _ ha => resolveIcon_unknown ha)
                (fun a _ ha => resolveIcon_ok_total hT ha) hic
            simp only [h7]
          · push_neg at hic
            obtain ⟨ics, h7⟩ := mapME_ok_total fun i hi =>
              resolveIcon_ok_total (q := man) hT (hic i hi)
            simp only [h7]
            have hscr : ∃ sh ∈ m.screenshots, ScreenshotResource.src sh = Url.Unknown := by
              rcases hU with h | h | h | h | h | h
              · obtain ⟨ea, hea, he⟩ := h
                exact absurd he (hra ea hea)
              · obtain ⟨ph, hph', he⟩ := h
                exact absurd he (hph ph hph')
              · obtain ⟨sh, hsh', he⟩ := h
                rcases he with he | ⟨i, hi, he⟩
                · exact absurd he (hsh sh hsh').1
                · exact absurd he ((hsh sh hsh').2 i hi)
              · obtain ⟨t, ht, he⟩ := h
                exact absurd he (hst t ht)
              · obtain ⟨i, hi, he⟩ := h
                exact absurd he (hic i hi)
              · exact h
            have h8 : mapME (resolveScreenshot ops man) m.screenshots
                = .error (.err .InvalidUnknownUrl) :=
              mapME_err_first (p := fun sh => sh.src = Url.Unknown)
                (fun a _ ha => resolveScreenshot_unknown ha)
                (fun a _ ha => resolveScreenshot_ok_total hT ha) hscr
            simp only [h8]

theorem resolveExternalApplication_ok_optRel {man : A}
    {ea ea' : ExternalApplicationResource A}
    (h : resolveExternalApplication ops man ea = .ok ea') :
    optRel (resolvesVia ops man) ea.url ea'.url := by
  rcases resolveExternalApplication_ok_elim h with ⟨hn, rfl⟩ | ⟨u, u', hu, hf, rfl⟩
  · simp only [hn]
    trivial
  · simp only [hu]
    exact resolveUrlField_ok_resolvesVia hf

theorem resolveProtocolHandler_ok_via {man : A} {ph ph' : ProtocolHandlerResource A}
    (h : resolveProtocolHandler ops man ph = .ok ph') :
    resolvesVia ops man ph.url ph'.url := by
  obtain ⟨u', hf, rfl⟩ := resolveProtocolHandler_ok_elim h
  exact resolveUrlField_ok_resolvesVia hf

theorem resolveIcon_ok_via {man : A} {i i' : IconResource A}
    (h : resolveIcon ops man i = .ok i') : resolvesVia ops man i.src i'.src := by
  obtain ⟨u', hf, rfl⟩ := resolveIcon_ok_elim h
  exact resolveUrlField_ok_resolvesVia hf

theorem resolveScreenshot_ok_via {man : A} {sh sh' : ScreenshotResource A}
    (h : resolveScreenshot ops man sh = .ok sh') :
    resolvesVia ops man sh.src sh'.src := by
  obtain ⟨u', hf, rfl⟩ := resolveScreenshot_ok_elim h
  exact resolveUrlField_ok_resolvesVia hf

theorem resolveShortcut_ok_via {man : A} {sh sh' : ShortcutResource A}
    (h : resolveShortcut ops man sh = .ok sh') :
    resolvesVia ops man sh.url sh'.url ∧
      List.Forall₂ (fun i i' => resolvesVia ops man i.src i'.src) sh.icons sh'.icons := by
  obtain ⟨u', ics, hf, hm, rfl⟩ := resolveShortcut_ok_elim h
  exact ⟨resolveUrlField_ok_resolvesVia hf,
    (mapME_ok_forall₂ hm).imp fun _ _ hi => resolveIcon_ok_via hi⟩

theorem resolveShareTargetOpt_ok_optRel {man : A}
    {st st' : Option (ShareTargetResource A)}
    (h : resolveShareTargetOpt ops man st = .ok st') :
    optRel (fun t t' => resolvesVia ops man t.action t'.action) st st' := by
  rcases resolveShareTargetOpt_ok_elim h with ⟨rfl, rfl⟩ | ⟨t, u', rfl, hf, rfl⟩
  · trivial
  · exact resolveUrlField_ok_resolvesVia hf

end MoreLemmas

section Claims

/-- C1: `process` resolves the start URL as follows: a `Relative ref` start
URL becomes `Absolute (join manifest_url ref)`; an `Unknown` start URL
becomes `Absolute document_url` exactly (no join); an `Absolute` start URL is
unchanged; and when the join of `ref` against `manifest_url` fails, `process`
returns a `UrlParsing` error carrying the underlying parse failure. -/
theorem c1_start_url_resolution {A E : Type} (ops : UrlOps A E)
    (m : WebAppManifest A) (doc man : A) :
    (∀ ref e, m.start_url = .Relative ref → ops.join man ref = .error e →
      process ops m doc man = .error (.err (.UrlParsing e))) ∧
    (∀ ref u, m.start_url = .Relative ref → ops.join man ref = .ok u →
      ∀ m', process ops m doc man = .ok m' → m'.start_url = .Absolute u) ∧
    (m.start_url = .Unknown →
      ∀ m', process ops m doc man = .ok m' → m'.start_url = .Absolute doc) ∧
    (∀ u, m.start_url = .Absolute u →
      ∀ m', process ops m doc man = .ok m' → m'.start_url = .Absolute u) := by
  refine ⟨?_, ?_, ?_, ?_⟩
  · intro ref e h he
    refine process_err_of_resolve (resolveUrls_err_start ?_)
    rw [h]
    exact resolveStartUrl_rel_err he
  · intro ref u h hu m' hp
    obtain ⟨hr, _⟩ := process_ok_elim hp
    obtain ⟨su, sc, ras, phs, shs, st, ics, scrs, h1, _, _, _, _, _, _, _, rfl⟩ :=
      resolveUrls_ok_elim hr
    rw [h, resolveStartUrl_rel_ok hu] at h1
    simpa using h1.symm
  · intro h m' hp
    obtain ⟨hr, _⟩ := process_ok_elim hp
    obtain ⟨su, sc, ras, phs, shs, st, ics, scrs, h1, _, _, _, _, _, _, _, rfl⟩ :=
      resolveUrls_ok_elim hr
    have he : resolveStartUrl ops doc man .Unknown = .ok (.Absolute doc) := rfl
    rw [h, he] at h1
    simpa using h1.symm
  · intro u h m' hp
    obtain ⟨hr, _⟩ := process_ok_elim hp
    obtain ⟨su, sc, ras, phs, shs, st, ics, scrs, h1, _, _, _, _, _, _, _, rfl⟩ :=
      resolveUrls_ok_elim hr
    have he : resolveStartUrl ops doc man (.Absolute u) = .ok (.Absolute u) := rfl
    rw [h, he] at h1
    simpa using h1.symm

/-- C1 witness: the four branches exercised on concrete inputs with the
`DemoUrl` model: a malformed relative start URL yields the `UrlParsing`
error; a well-formed relative start URL resolves against the manifest URL; an
unknown start URL becomes the document URL; an absolute start URL passes
through. -/
theorem c1_start_url_resolution_witness :
    process demoOps { demoManifest with start_url := .Relative "!" } demoDoc demoMan
      = .error (.err (.UrlParsing "bad reference")) ∧
    ({ demoManifest with
       start_url := .Absolute ⟨"app", "/start.html"⟩,
       scope := .Absolute ⟨"app", "/"⟩ } : WebAppManifest DemoUrl).start_url
      = .Absolute ⟨"app", "/start.html"⟩ ∧
    ({ demoManifest with
       start_url := .Absolute ⟨"app", "/index.html"⟩,
       scope := .Absolute ⟨"app", "/"⟩ } : WebAppManifest DemoUrl).start_url
      = .Absolute demoDoc ∧
    ({ demoManifest with
       start_url := .Absolute ⟨"app", "/a.html"⟩,
       scope := .Absolute ⟨"app", "/"⟩ } : WebAppManifest DemoUrl).start_url
      = .Absolute ⟨"app", "/a.html"⟩ := by
  refine ⟨?_, ?_, ?_, ?_⟩
  · exact (c1_start_url_resolution demoOps
      { demoManifest with start_url := .Relative "!" } demoDoc demoMan).1
      "!" "bad reference" rfl rfl
  · exact (c1_start_url_resolution demoOps
      { demoManifest with start_url := .Relative "/start.html" } demoDoc demoMan).2.1
      "/start.html" ⟨"app", "/start.html"⟩ rfl rfl
      { demoManifest with
        start_url := .Absolute ⟨"app", "/start.html"⟩,
        scope := .Absolute ⟨"app", "/"⟩ } rfl
  · exact (c1_start_url_resolution demoOps demoManifest demoDoc demoMan).2.2.1 rfl
      { demoManifest with
        start_url := .Absolute ⟨"app", "/index.html"⟩,
        scope := .Absolute ⟨"app", "/"⟩ } rfl
  · exact (c1_start_url_resolution demoOps
      { demoManifest with start_url := .Absolute ⟨"app", "/a.html"⟩ } demoDoc demoMan).2.2.2
      ⟨"app", "/a.html"⟩ rfl
      { demoManifest with
        start_url := .Absolute ⟨"app", "/a.html"⟩,
        scope := .Absolute ⟨"app", "/"⟩ } rfl

/-- C2: `process` resolves the scope URL as follows: a `Relative ref` scope
becomes `Absolute (join manifest_url ref)`; an `Unknown` scope becomes
`Absolute (join s ".")` where `Absolute s` is the already-resolved start URL;
an `Absolute` scope is unchanged. -/
theorem c2_scope_resolution {A E : Type} (ops : UrlOps A E)
    (m : WebAppManifest A) (doc man : A) :
    (∀ ref u, m.scope = .Relative ref → ops.join man ref = .ok u →
      ∀ m', process ops m doc man = .ok m' → m'.scope = .Absolute u) ∧
    (∀ s u, m.scope = .Unknown → ops.join s "." = .ok u →
      ∀ m', process ops m doc man = .ok m' → m'.start_url = .Absolute s →
        m'.scope = .Absolute u) ∧
    (∀ u, m.scope = .Absolute u →
      ∀ m', process ops m doc man = .ok m' → m'.scope = .Absolute u) := by
  refine ⟨?_, ?_, ?_⟩
  · intro ref u h hu m' hp
    obtain ⟨hr, _⟩ := process_ok_elim hp
    obtain ⟨su, sc, ras, phs, shs, st, ics, scrs, _, h2, _, _, _, _, _, _, rfl⟩ :=
      resolveUrls_ok_elim hr
    rw [h, resolveScope_rel_ok hu] at h2
    simpa using h2.symm
  · intro s u h hu m' hp hstart
    obtain ⟨hr, _⟩ := process_ok_elim hp
    obtain ⟨su, sc, ras, phs, shs, st, ics, scrs, _, h2, _, _, _, _, _, _, rfl⟩ :=
      resolveUrls_ok_elim hr
    have hsu : su = .Absolute s := by simpa using hstart
    rw [h, hsu, resolveScope_unknown_ok hu] at h2
    simpa using h2.symm
  · intro u h m' hp
    obtain ⟨hr, _⟩ := process_ok_elim hp
    obtain ⟨su, sc, ras, phs, shs, st, ics, scrs, _, h2, _, _, _, _, _, _, rfl⟩ :=
      resolveUrls_ok_elim hr
    have he : resolveScope ops man su (.Absolute u) = .ok (.Absolute u) := rfl
    rw [h, he] at h2
    simpa using h2.symm

/-- C2 witness: the three branches exercised on concrete inputs: a relative
scope resolves against the manifest URL; an unknown scope becomes the
directory of the resolved start URL; an absolute scope passes through. -/
theorem c2_scope_resolution_witness :
    ({ demoManifest with
       start_url := .Absolute ⟨"app", "/index.html"⟩,
       scope := .Absolute ⟨"app", "/"⟩ } : WebAppManifest DemoUrl).scope
      = .Absolute ⟨"app", "/"⟩ ∧
    ({ demoManifest with
       start_url := .Absolute ⟨"app", "/index.html"⟩,
       scope := .Absolute ⟨"app", "/"⟩ } : WebAppManifest DemoUrl).scope
      = .Absolute ⟨"app", "/"⟩ ∧
    ({ demoManifest with
       start_url := .Absolute ⟨"app", "/index.html"⟩,
       scope := .Absolute ⟨"app", "/"⟩ } : WebAppManifest DemoUrl).scope
      = .Absolute ⟨"app", "/"⟩ := by
  refine ⟨?_, ?_, ?_⟩
  · exact (c2_scope_resolution demoOps
      { demoManifest with scope := .Relative "/" } demoDoc demoMan).1
      "/" ⟨"app", "/"⟩ rfl rfl
      { demoManifest with
        start_url := .Absolute ⟨"app", "/index.html"⟩,
        scope := .Absolute ⟨"app", "/"⟩ } rfl
  · exact (c2_scope_resolution demoOps demoManifest demoDoc demoMan).2.1
      ⟨"app", "/index.html"⟩ ⟨"app", "/"⟩ rfl rfl
      { demoManifest with
        start_url := .Absolute ⟨"app", "/index.html"⟩,
        scope := .Absolute ⟨"app", "/"⟩ } rfl rfl
  · exact (c2_scope_resolution demoOps
      { demoManifest with scope := .Absolute ⟨"app", "/"⟩ } demoDoc demoMan).2.2
      ⟨"app", "/"⟩ rfl
      { demoManifest with
        start_url := .Absolute ⟨"app", "/index.html"⟩,
        scope := .Absolute ⟨"app", "/"⟩ } rfl

/-- C8: the tri-state `Url` conversions: `from_str` never fails, yielding
`Absolute` when absolute parsing succeeds and `Relative` of the input text
when it fails; `TryInto<String>` yields the string form for `Absolute` and
`Relative` and fails with `NotStringifyable` exactly on `Unknown`;
`TryInto<AbsoluteUrl>` yields the payload exactly for `Absolute` and fails
with `NotAbsolute` for `Relative` and `Unknown`. -/
theorem c8_url_conversions {A E : Type} (ops : UrlOps A E) (s : String) (v : A) :
    (∃ u, Url.fromStr ops s = .ok u) ∧
    (∀ w, ops.parse s = .ok w → Url.fromStr ops s = .ok (.Absolute w)) ∧
    (∀ e, ops.parse s = .error e → Url.fromStr ops s = .ok (.Relative s)) ∧
    Url.tryIntoString ops (.Absolute v) = .ok (ops.render v) ∧
    Url.tryIntoString ops (.Relative s) = .ok s ∧
    Url.tryIntoString ops (Url.Unknown : Url A) = .error (.NotStringifyable .Unknown) ∧
    Url.tryIntoAbsolute E (.Absolute v) = .ok v ∧
    Url.tryIntoAbsolute E (Url.Relative s : Url A) = .error (.NotAbsolute (.Relative s)) ∧
    Url.tryIntoAbsolute E (@Url.Unknown A) = .error (.NotAbsolute .Unknown) := by
  refine ⟨⟨_, rfl⟩, ?_, ?_, rfl, rfl, rfl, rfl, rfl, rfl⟩
  · intro w hw
    simp [Url.fromStr, hw]
  · intro e he
    simp [Url.fromStr, he]

/-- C8 witness: a string the demo model parses becomes `Absolute`, one it
rejects becomes `Relative`. -/
theorem c8_url_conversions_witness :
    Url.fromStr demoOps "https://example.com/"
      = .ok (.Absolute ⟨"https://example.com", "/"⟩) ∧
    Url.fromStr demoOps "/rel" = .ok (.Relative "/rel") := by
  constructor
  · exact (c8_url_conversions demoOps "https://example.com/" ⟨"a", "/"⟩).2.1
      ⟨"https://example.com", "/"⟩ rfl
  · exact (c8_url_conversions demoOps "/rel" ⟨"a", "/"⟩).2.2.1
      "relative URL without a base" rfl

/-- C5: once all URL fields resolve without error, a resolved start URL whose
origin differs from the document URL's origin makes `process` return
`NotSameOrigin` with `url1` the resolved start URL and `url2` the document
URL, regardless of any scope facts (the check precedes all scope-containment
checks). -/
theorem c5_same_origin_check {A E : Type} (ops : UrlOps A E)
    (m : WebAppManifest A) (doc man : A) (m' : WebAppManifest A) (su : A)
    (h1 : resolveUrls ops m doc man = .ok m')
    (h2 : m'.start_url = .Absolute su)
    (h3 : ops.origin su ≠ ops.origin doc) :
    process ops m doc man = .error (.err (.NotSameOrigin su doc)) := by
  obtain ⟨sv, hsc⟩ := (resolveUrls_ok_resolved h1).2.1
  have hne : (ops.origin su != ops.origin doc) = true := by
    simp [bne_iff_ne, h3]
  rw [process_of_resolve_ok h1, validate_eq hsc h2, hne]
  rfl

/-- C5 witness: an absolute start URL on the origin `evil` against a document
URL on the origin `app` makes `process` fail with `NotSameOrigin`. -/
theorem c5_same_origin_check_witness :
    process demoOps { demoManifest with
        start_url := .Absolute ⟨"evil", "/x"⟩,
        scope := .Absolute ⟨"evil", "/"⟩ } demoDoc demoMan
      = .error (.err (.NotSameOrigin ⟨"evil", "/x"⟩ demoDoc)) :=
  c5_same_origin_check demoOps
    { demoManifest with
      start_url := .Absolute ⟨"evil", "/x"⟩, scope := .Absolute ⟨"evil", "/"⟩ }
    demoDoc demoMan
    { demoManifest with
      start_url := .Absolute ⟨"evil", "/x"⟩, scope := .Absolute ⟨"evil", "/"⟩ }
    ⟨"evil", "/x"⟩ rfl rfl (by decide)

/-- C4 (amended): after the rewrite pass and the same-origin check, `process`
succeeds past the start-URL scope-containment check exactly when the resolved
start URL shares the scope's origin and its path starts with the scope's path
(the scope's path is a string prefix of the start URL's path — not, as the
claim states, the other way around); otherwise it returns `NotWithinScope`
naming the start URL and the scope. -/
theorem c4_start_url_scope_check {A E : Type} (ops : UrlOps A E)
    (m : WebAppManifest A) (doc man : A) (m' : WebAppManifest A) (su sc : A)
    (h1 : resolveUrls ops m doc man = .ok m')
    (h2 : m'.scope = .Absolute sc)
    (h3 : m'.start_url = .Absolute su)
    (h4 : ops.origin su = ops.origin doc) :
    (violatesScope ops sc su = false ↔
      (ops.origin su = ops.origin sc ∧
        strStartsWith (ops.path su) (ops.path sc) = true)) ∧
    (violatesScope ops sc su = true →
      process ops m doc man = .error (.err (.NotWithinScope su sc))) ∧
    (violatesScope ops sc su = false →
      process ops m doc man =
        (match scopedResourceChecks ops sc m' with
         | .error e => .error e
         | .ok _ => .ok m')) := by
  have heq : (ops.origin su != ops.origin doc) = false := by
    simp [bne_iff_ne, h4]
  refine ⟨?_, ?_, ?_⟩
  · simp [violatesScope]
  · intro hviol
    rw [process_of_resolve_ok h1, validate_eq h2 h3, heq, hviol]
    rfl
  · intro hviol
    rw [process_of_resolve_ok h1, validate_eq h2 h3, heq, hviol]
    rfl

/-- C4 witness: the spec scenario start URL path `/` against scope path
`/scope` fails the prefix test and `process` returns `NotWithinScope` naming
the start URL and the scope; a start URL inside the scope passes through to
the scoped-resource checks. -/
theorem c4_start_url_scope_check_witness :
    process demoOps { demoManifest with
        start_url := .Absolute ⟨"app", "/"⟩,
        scope := .Absolute ⟨"app", "/scope"⟩ } demoDoc demoMan
      = .error (.err (.NotWithinScope ⟨"app", "/"⟩ ⟨"app", "/scope"⟩)) ∧
    process demoOps { demoManifest with
        start_url := .Absolute ⟨"app", "/s/x"⟩,
        scope := .Absolute ⟨"app", "/s/"⟩ } demoDoc demoMan
      = (match scopedResourceChecks demoOps ⟨"app", "/s/"⟩
          { demoManifest with
            start_url := .Absolute ⟨"app", "/s/x"⟩,
            scope := .Absolute ⟨"app", "/s/"⟩ } with
         | .error e => .error e
         | .ok _ => .ok { demoManifest with
            start_url := .Absolute ⟨"app", "/s/x"⟩,
            scope := .Absolute ⟨"app", "/s/"⟩ }) := by
  constructor
  · exact (c4_start_url_scope_check demoOps
      { demoManifest with
        start_url := .Absolute ⟨"app", "/"⟩, scope := .Absolute ⟨"app", "/scope"⟩ }
      demoDoc demoMan
      { demoManifest with
        start_url := .Absolute ⟨"app", "/"⟩, scope := .Absolute ⟨"app", "/scope"⟩ }
      ⟨"app", "/"⟩ ⟨"app", "/scope"⟩ rfl rfl rfl rfl).2.1 (by decide)
  · exact (c4_start_url_scope_check demoOps
      { demoManifest with
        start_url := .Absolute ⟨"app", "/s/x"⟩, scope := .Absolute ⟨"app", "/s/"⟩ }
      demoDoc demoMan
      { demoManifest with
        start_url := .Absolute ⟨"app", "/s/x"⟩, scope := .Absolute ⟨"app", "/s/"⟩ }
      ⟨"app", "/s/x"⟩ ⟨"app", "/s/"⟩ rfl rfl rfl rfl).2.2 (by decide)

/-- C6: scope containment is checked for exactly the protocol handler URLs,
the shortcut URLs and the share-target action, scanned in that order; a
resolved URL violates it when its origin differs from the scope's or its path
does not start with the scope's path; the first violation yields
`NotWithinScope` naming exactly that URL and the scope, and when none of the
scanned URLs violates, `process` succeeds — whatever the icon and screenshot
URLs are (they are never scope-checked). -/
theorem c6_scoped_resource_checks {A E : Type} (ops : UrlOps A E)
    (m : WebAppManifest A) (doc man : A) (m' : WebAppManifest A) (su sc : A)
    (phs shs : List A) (sta : Option A)
    (h1 : resolveUrls ops m doc man = .ok m')
    (h2 : m'.scope = .Absolute sc)
    (h3 : m'.start_url = .Absolute su)
    (h4 : ops.origin su = ops.origin doc)
    (h5 : violatesScope ops sc su = false)
    (h6 : m'.protocol_handlers.map ProtocolHandlerResource.url = phs.map Url.Absolute)
    (h7 : m'.shortcuts.map ShortcutResource.url = shs.map Url.Absolute)
    (h8 : m'.share_target.map ShareTargetResource.action = sta.map Url.Absolute) :
    (∀ u, (phs ++ shs ++ sta.toList).find? (fun x => violatesScope ops sc x) = some u →
      process ops m doc man = .error (.err (.NotWithinScope u sc))) ∧
    ((phs ++ shs ++ sta.toList).find? (fun x => violatesScope ops sc x) = none →
      process ops m doc man = .ok m') := by
  have heq : (ops.origin su != ops.origin doc) = false := by
    simp [bne_iff_ne, h4]
  have hbase : process ops m doc man =
      (match scopedResourceChecks ops sc m' with
       | .error e => .error e
       | .ok _ => .ok m') := by
    rw [process_of_resolve_ok h1, validate_eq h2 h3, heq, h5]
    rfl
  constructor
  · intro u hfind
    rw [hbase, scopedResourceChecks_eq h6 h7 h8, hfind]
  · intro hfind
    rw [hbase, scopedResourceChecks_eq h6 h7 h8, hfind]

/-- C6 witness: a manifest whose second protocol handler URL sits on a
foreign origin fails with `NotWithinScope` naming exactly that URL; a
manifest whose protocol handler is in scope but whose icon and screenshot
URLs are far outside the scope still succeeds. -/
theorem c6_scoped_resource_checks_witness :
    process demoOps { demoManifest with
        start_url := .Absolute ⟨"app", "/index.html"⟩,
        scope := .Absolute ⟨"app", "/"⟩,
        protocol_handlers := [⟨"web+x", .Absolute ⟨"app", "/h"⟩⟩,
                              ⟨"web+y", .Absolute ⟨"evil", "/h"⟩⟩] } demoDoc demoMan
      = .error (.err (.NotWithinScope ⟨"evil", "/h"⟩ ⟨"app", "/"⟩)) ∧
    process demoOps { demoManifest with
        start_url := .Absolute ⟨"app", "/index.html"⟩,
        scope := .Absolute ⟨"app", "/"⟩,
        protocol_handlers := [⟨"web+x", .Absolute ⟨"app", "/h"⟩⟩],
        icons := [⟨.Absolute ⟨"elsewhere", "/icon.png"⟩, none, [], [], none⟩],
        screenshots := [⟨.Absolute ⟨"faraway", "/shot.png"⟩, none, [], none⟩] }
        demoDoc demoMan
      = .ok { demoManifest with
          start_url := .Absolute ⟨"app", "/index.html"⟩,
          scope := .Absolute ⟨"app", "/"⟩,
          protocol_handlers := [⟨"web+x", .Absolute ⟨"app", "/h"⟩⟩],
          icons := [⟨.Absolute ⟨"elsewhere", "/icon.png"⟩, none, [], [], none⟩],
          screenshots := [⟨.Absolute ⟨"faraway", "/shot.png"⟩, none, [], none⟩] } := by
  constructor
  · exact (c6_scoped_resource_checks demoOps
      { demoManifest with
        start_url := .Absolute ⟨"app", "/index.html"⟩,
        scope := .Absolute ⟨"app", "/"⟩,
        protocol_handlers := [⟨"web+x", .Absolute ⟨"app", "/h"⟩⟩,
                              ⟨"web+y", .Absolute ⟨"evil", "/h"⟩⟩] }
      demoDoc demoMan
      { demoManifest with
        start_url := .Absolute ⟨"app", "/index.html"⟩,
        scope := .Absolute ⟨"app", "/"⟩,
        protocol_handlers := [⟨"web+x", .Absolute ⟨"app", "/h"⟩⟩,
                              ⟨"web+y", .Absolute ⟨"evil", "/h"⟩⟩] }
      ⟨"app", "/index.html"⟩ ⟨"app", "/"⟩
      [⟨"app", "/h"⟩, ⟨"evil", "/h"⟩] [] none
      rfl rfl rfl rfl (by decide) rfl rfl rfl).1 ⟨"evil", "/h"⟩ (by decide)
  · exact (c6_scoped_resource_checks demoOps
      { demoManifest with
        start_url := .Absolute ⟨"app", "/index.html"⟩,
        scope := .Absolute ⟨"app", "/"⟩,
        protocol_handlers := [⟨"web+x", .Absolute ⟨"app", "/h"⟩⟩],
        icons := [⟨.Absolute ⟨"elsewhere", "/icon.png"⟩, none, [], [], none⟩],
        screenshots := [⟨.Absolute ⟨"faraway", "/shot.png"⟩, none, [], none⟩] }
      demoDoc demoMan
      { demoManifest with
        start_url := .Absolute ⟨"app", "/index.html"⟩,
        scope := .Absolute ⟨"app", "/"⟩,
        protocol_handlers := [⟨"web+x", .Absolute ⟨"app", "/h"⟩⟩],
        icons := [⟨.Absolute ⟨"elsewhere", "/icon.png"⟩, none, [], [], none⟩],
        screenshots := [⟨.Absolute ⟨"faraway", "/shot.png"⟩, none, [], none⟩] }
      ⟨"app", "/index.html"⟩ ⟨"app", "/"⟩
      [⟨"app", "/h"⟩] [] none
      rfl rfl rfl rfl (by decide) rfl rfl rfl).2 (by decide)

/-- C7: `process` is idempotent on success: if `process` succeeded, running it
again on the result with the same two context URLs succeeds and returns the
result unchanged. -/
theorem c7_process_idempotent {A E : Type} (ops : UrlOps A E)
    (m : WebAppManifest A) (doc man : A) (m' : WebAppManifest A)
    (h : process ops m doc man = .ok m') :
    process ops m' doc man = .ok m' := by
  obtain ⟨hr, hv⟩ := process_ok_elim h
  exact process_ok_intro (resolveUrls_id_of_resolved (resolveUrls_ok_resolved hr)) hv

/-- C7 witness: re-processing the processed default manifest is a no-op. -/
theorem c7_process_idempotent_witness :
    process demoOps { demoManifest with
        start_url := .Absolute ⟨"app", "/index.html"⟩,
        scope := .Absolute ⟨"app", "/"⟩ } demoDoc demoMan
      = .ok { demoManifest with
          start_url := .Absolute ⟨"app", "/index.html"⟩,
          scope := .Absolute ⟨"app", "/"⟩ } :=
  c7_process_idempotent demoOps demoManifest demoDoc demoMan
    { demoManifest with
      start_url := .Absolute ⟨"app", "/index.html"⟩,
      scope := .Absolute ⟨"app", "/"⟩ } rfl

/-- C9: `process` never reaches the `unreachable!()` branches: on every
input its result is a success or an ordinary `ManifestError` — never the
`panic` outcome that models those branches. -/
theorem c9_no_panic {A E : Type} (ops : UrlOps A E)
    (m : WebAppManifest A) (doc man : A) :
    (∃ m', process ops m doc man = .ok m') ∨
    (∃ e, process ops m doc man = .error (.err e)) := by
  cases hr : resolveUrls ops m doc man with
  | error pe =>
    obtain ⟨e, rfl⟩ := resolveUrls_err_isErr hr
    exact Or.inr ⟨e, process_err_of_resolve hr⟩
  | ok m' =>
    obtain ⟨⟨sv, hs⟩, ⟨cv, hc⟩, _, hph, hsc, hst, _, _⟩ := resolveUrls_ok_resolved hr
    obtain ⟨phs, hphs⟩ := exists_abs_list hph
    obtain ⟨shs, hshs⟩ :=
      exists_abs_list fun sh hsh => (hsc sh hsh).1
    obtain ⟨sta, hsta⟩ := exists_abs_opt hst
    rw [process_of_resolve_ok hr, validate_eq hc hs]
    cases h1 : ops.origin sv != ops.origin doc with
    | true => exact Or.inr ⟨.NotSameOrigin sv doc, by simp⟩
    | false =>
      cases h2 : violatesScope ops cv sv with
      | true => exact Or.inr ⟨.NotWithinScope sv cv, by simp⟩
      | false =>
        rw [scopedResourceChecks_eq hphs hshs hsta]
        cases hf : (phs ++ shs ++ sta.toList).find? (fun x => violatesScope ops cv x) with
        | some u => exact Or.inr ⟨.NotWithinScope u cv, by simp [hf]⟩
        | none => exact Or.inl ⟨m', by simp [hf]⟩

/-- C10: `related_applications` URLs are resolved but never validated: if
`process` succeeds on a document, replacing its `related_applications` by any
entries whose URLs are already absolute — on any origin and any path, in or
out of scope — still succeeds, with those entries passed through unchanged. -/
theorem c10_related_apps_not_validated {A E : Type} (ops : UrlOps A E)
    (m : WebAppManifest A) (doc man : A) (m' : WebAppManifest A)
    (ras : List (ExternalApplicationResource A))
    (h : process ops m doc man = .ok m')
    (habs : ∀ ea ∈ ras, ∃ v, ExternalApplicationResource.url ea = some (Url.Absolute v)) :
    process ops { m with related_applications := ras } doc man
      = .ok { m' with related_applications := ras } := by
  obtain ⟨hr, hv⟩ := process_ok_elim h
  obtain ⟨su, sc, ras₀, phs, shs, st, ics, scrs, h1, h2, h3, h4, h5, h6, h7, h8, rfl⟩ :=
    resolveUrls_ok_elim hr
  have h3' : mapME (resolveExternalApplication ops man) ras = .ok ras :=
    mapME_ok_of_id fun ea hea => resolveExternalApplication_id (Or.inr (habs ea hea))
  have hr' : resolveUrls ops { m with related_applications := ras } doc man
      = .ok { m with
          start_url := su, scope := sc, related_applications := ras,
          protocol_handlers := phs, shortcuts := shs, share_target := st,
          icons := ics, screenshots := scrs } :=
    resolveUrls_ok_intro (m := { m with related_applications := ras })
      h1 h2 h3' h4 h5 h6 h7 h8
  exact process_ok_intro hr' hv

/-- Every join of the total demo capability succeeds. -/
theorem demoOpsT_total : joinsTotal demoOpsT := by
  intro b r
  by_cases h : r = "."
  · refine ⟨{ origin := b.origin, path := "/" }, ?_⟩
    simp [demoOpsT, demoJoinTotal, h]
  · refine ⟨{ origin := b.origin, path := r }, ?_⟩
    simp [demoOpsT, demoJoinTotal, h]

/-- C3: every resource URL field (external-application url, protocol handler
url, shortcut url and its icons' src, share-target action, top-level icon
src, screenshot src) is rewritten by `process` against the manifest URL only:
on success each field relates to its input by `resolvesVia` (`Relative ref`
became `Absolute (join manifest_url ref)`, `Absolute` is unchanged, and
`Unknown` admits no success); and when any of these fields is `Unknown` (and
no join can fail), `process` aborts with `InvalidUnknownUrl`. -/
theorem c3_resource_url_rewrites {A E : Type} (ops : UrlOps A E)
    (m : WebAppManifest A) (doc man : A) :
    (∀ m', process ops m doc man = .ok m' →
      List.Forall₂ (fun ea ea' => optRel (resolvesVia ops man)
          (ExternalApplicationResource.url ea) (ExternalApplicationResource.url ea'))
        m.related_applications m'.related_applications ∧
      List.Forall₂ (fun ph ph' => resolvesVia ops man
          (ProtocolHandlerResource.url ph) (ProtocolHandlerResource.url ph'))
        m.protocol_handlers m'.protocol_handlers ∧
      List.Forall₂ (fun sh sh' => resolvesVia ops man
          (ShortcutResource.url sh) (ShortcutResource.url sh') ∧
          List.Forall₂ (fun i i' => resolvesVia ops man
            (IconResource.src i) (IconResource.src i'))
            (ShortcutResource.icons sh) (ShortcutResource.icons sh'))
        m.shortcuts m'.shortcuts ∧
      optRel (fun t t' => resolvesVia ops man
          (ShareTargetResource.action t) (ShareTargetResource.action t'))
        m.share_target m'.share_target ∧
      List.Forall₂ (fun i i' => resolvesVia ops man
          (IconResource.src i) (IconResource.src i')) m.icons m'.icons ∧
      List.Forall₂ (fun sh sh' => resolvesVia ops man
          (ScreenshotResource.src sh) (ScreenshotResource.src sh'))
        m.screenshots m'.screenshots) ∧
    (joinsTotal ops → hasUnknownResourceUrl m →
      process ops m doc man = .error (.err .InvalidUnknownUrl)) := by
  constructor
  · intro m' hp
    obtain ⟨hr, _⟩ := process_ok_elim hp
    obtain ⟨su, sc, ras, phs, shs, st, ics, scrs, _, _, h3, h4, h5, h6, h7, h8, rfl⟩ :=
      resolveUrls_ok_elim hr
    refine ⟨?_, ?_, ?_, ?_, ?_, ?_⟩
    · exact (mapME_ok_forall₂ h3).imp fun _ _ hab =>
        resolveExternalApplication_ok_optRel hab
    · exact (mapME_ok_forall₂ h4).imp fun _ _ hab => resolveProtocolHandler_ok_via hab
    · exact (mapME_ok_forall₂ h5).imp fun _ _ hab => resolveShortcut_ok_via hab
    · exact resolveShareTargetOpt_ok_optRel h6
    · exact (mapME_ok_forall₂ h7).imp fun _ _ hab => resolveIcon_ok_via hab
    · exact (mapME_ok_forall₂ h8).imp fun _ _ hab => resolveScreenshot_ok_via hab
  · intro hT hU
    exact process_err_of_resolve (resolveUrls_err_IU hT hU)

/-- C3 witness: a relative top-level icon `src` resolves against the manifest
URL (the spec's `icon.png` scenario), and an `Unknown` protocol handler URL
makes `process` fail with `InvalidUnknownUrl`. -/
theorem c3_resource_url_rewrites_witness :
    List.Forall₂ (fun i i' => resolvesVia demoOps demoMan
        (IconResource.src i) (IconResource.src i'))
      [⟨.Relative "icon.png", none, [], [], none⟩]
      [⟨.Absolute ⟨"app", "icon.png"⟩, none, [], [], none⟩] ∧
    process demoOpsT { demoManifest with
        protocol_handlers := [⟨"web+x", .Unknown⟩] } demoDoc demoMan
      = .error (.err .InvalidUnknownUrl) := by
  constructor
  · exact ((c3_resource_url_rewrites demoOps
      { demoManifest with
        start_url := .Absolute ⟨"app", "/index.html"⟩,
        scope := .Absolute ⟨"app", "/"⟩,
        icons := [⟨.Relative "icon.png", none, [], [], none⟩] } demoDoc demoMan).1
      { demoManifest with
        start_url := .Absolute ⟨"app", "/index.html"⟩,
        scope := .Absolute ⟨"app", "/"⟩,
        icons := [⟨.Absolute ⟨"app", "icon.png"⟩, none, [], [], none⟩] } rfl).2.2.2.2.1
  · exact (c3_resource_url_rewrites demoOpsT
      { demoManifest with protocol_handlers := [⟨"web+x", .Unknown⟩] }
      demoDoc demoMan).2 demoOpsT_total
      (Or.inr (Or.inl ⟨⟨"web+x", .Unknown⟩, List.mem_singleton_self _, rfl⟩))

/-- C10 witness: a related application whose absolute URL sits on a foreign
origin and outside the scope passes through `process` unchanged. -/
theorem c10_related_apps_not_validated_witness :
    process demoOps { demoManifest with
        start_url := .Absolute ⟨"app", "/index.html"⟩,
        scope := .Absolute ⟨"app", "/"⟩,
        related_applications :=
          [⟨"play", none, some (.Absolute ⟨"market", "details?id=x"⟩), none, []⟩] }
        demoDoc demoMan
      = .ok { demoManifest with
          start_url := .Absolute ⟨"app", "/index.html"⟩,
          scope := .Absolute ⟨"app", "/"⟩,
          related_applications :=
            [⟨"play", none, some (.Absolute ⟨"market", "details?id=x"⟩), none, []⟩] } :=
  c10_related_apps_not_validated demoOps
    { demoManifest with
      start_url := .Absolute ⟨"app", "/index.html"⟩,
      scope := .Absolute ⟨"app", "/"⟩ } demoDoc demoMan
    { demoManifest with
      start_url := .Absolute ⟨"app", "/index.html"⟩,
      scope := .Absolute ⟨"app", "/"⟩ }
    [⟨"play", none, some (.Absolute ⟨"market", "details?id=x"⟩), none, []⟩]
    rfl
    (fun ea hea => ⟨⟨"market", "details?id=x"⟩, by
      rcases List.mem_singleton.mp hea with rfl
      rfl⟩)

/-- C4 counterexample: the claim as stated — success past the start-URL
containment check only when the start URL's path is a string prefix of the
scope's path — fails on the code: with start URL path `/scope/x` and scope
path `/scope`, the start path is not a string prefix of the scope path (and
the origins agree), yet `process` succeeds past the check.  The code checks
the opposite direction: the scope's path must be a prefix of the start URL's
path. -/
theorem c4_start_url_scope_check_counterexample :
    strStartsWith (demoOps.path (⟨"app", "/scope"⟩ : DemoUrl))
        (demoOps.path (⟨"app", "/scope/x"⟩ : DemoUrl)) = false ∧
    demoOps.origin ⟨"app", "/scope/x"⟩ = demoOps.origin ⟨"app", "/scope"⟩ ∧
    process demoOps { demoManifest with
        start_url := .Absolute ⟨"app", "/scope/x"⟩,
        scope := .Absolute ⟨"app", "/scope"⟩ } demoDoc demoMan
      = .ok { demoManifest with
          start_url := .Absolute ⟨"app", "/scope/x"⟩,
          scope := .Absolute ⟨"app", "/scope"⟩ } := by
  refine ⟨by decide, rfl, rfl⟩

end Claims

end Wam
